import Mathlib

/-!
Verification of the type-resolution and route-assembly logic of the
next-openapi-gen code base, shallowly embedded in Lean.

The embedding covers, faithfully translated from the TypeScript source:

- the structural type resolver of src/lib/schema-processor.ts
  (resolveType, resolveTSNodeType, findSchemaDefinition, processSchemaFile,
  processEnum, extractKeysFromLiteralType, getPropertyOptions), modelled for
  the configuration schemaType = "typescript", so the zod-only branches that
  are guarded by that configuration value are skipped;
- the zod schema converter of src/lib/zod-converter.ts
  (convertZodSchemaToOpenApi, processZodNode, processZodObject,
  processZodChain, processZodPrimitive, processZodUnion,
  processZodIntersection, processZodTuple, processZodDiscriminatedUnion,
  processZodLiteral, isOptional, hasOptionalMethod,
  extractDescriptionFromArguments, escapeRegExp);
- the response assembly of the RouteProcessor in src/lib/utils.ts
  (buildResponsesFromConfig, getDefaultSuccessCode,
  getDefaultErrorDescription, createResponseSchema, and the response part of
  addRouteToPaths), and its path sorting (getSortedPaths, getSwaggerPaths);
- the annotation extraction of src/lib/utils.ts
  (cleanComment, extractTypeFromComment, and the response-type part of
  extractJSDocComments), with the regular expressions of the source given
  an explicit leftmost-match semantics on character lists.

The file system is flattened into an explicit declaration environment: the
directory scans of the source (scanSchemaDir, scanDirectoryForZodSchema)
collect declarations by name from the files on disk, which the embedding
models as a lookup into a fixed association list of declarations.
Recursion through that environment is bounded by an explicit fuel
parameter; fuel zero returns the empty schema, which every claim below
avoids by supplying enough fuel.
-/

set_option maxRecDepth 20000

namespace NOG

/-- Literal values occurring in schemas: string, number and boolean
literals.  Numbers are modelled as integers, which covers every literal
used by the claims. -/
inductive Lit where
  | s (v : String)
  | n (v : Int)
  | b (v : Bool)
deriving DecidableEq, Repr

/-- JavaScript truthiness of a literal: empty string, zero and false are
falsy. -/
def litTruthy : Lit → Bool
  | .s v => v ≠ ""
  | .n v => v ≠ 0
  | .b v => v

/-- Kind of a literal, as the typeof operator of JavaScript reports it. -/
def litTypeof : Lit → String
  | .s _ => "string"
  | .n _ => "number"
  | .b _ => "boolean"

/-- Default values captured by the default refinement of the builder DSL:
a literal, null, or a shallow object of literals. -/
inductive DefV where
  | lit (v : Lit)
  | nullV
  | objV (fields : List (String × Lit))
deriving DecidableEq, Repr

/-- One layer of an OpenAPI schema object, mirroring the OpenApiSchema
type of src/types.ts.  Every field is optional: a missing field models a
property that the JavaScript object does not carry.  The source sometimes
writes the literal true as additionalProperties, which the embedding keeps
in the separate field additionalPropertiesB. -/
structure SchemaF (α : Type) where
  type? : Option String := none
  format? : Option String := none
  ref? : Option String := none
  description? : Option String := none
  enum? : Option (List Lit) := none
  nullable? : Option Bool := none
  deprecated? : Option Bool := none
  properties? : Option (List (String × α)) := none
  required? : Option (List String) := none
  items? : Option α := none
  additionalProperties? : Option α := none
  additionalPropertiesB? : Option Bool := none
  oneOf? : Option (List α) := none
  allOf? : Option (List α) := none
  uniqueItems? : Option Bool := none
  minimum? : Option Int := none
  maximum? : Option Int := none
  exclusiveMinimum? : Option Bool := none
  exclusiveMaximum? : Option Bool := none
  minLength? : Option Int := none
  maxLength? : Option Int := none
  minItems? : Option Int := none
  maxItems? : Option Int := none
  pattern? : Option String := none
  default? : Option DefV := none
  discriminator? : Option String := none

/-- OpenAPI schema values (recursive). -/
inductive Schema where
  | mk : SchemaF Schema → Schema

/-- Field accessor for a schema. -/
def Schema.f : Schema → SchemaF Schema
  | .mk c => c

@[simp]
theorem Schema.f_mk (c : SchemaF Schema) : (Schema.mk c).f = c := rfl

/-- The empty schema, written as a bare object literal in the source. -/
def emptyS : Schema := .mk {}

/-- Schema consisting of a single reference into components.schemas, as
the source writes it at every cycle-breaking and reference point. -/
def refSchema (name : String) : Schema :=
  .mk { ref? := some ("#/components/schemas/" ++ name) }

/-- Spreading nullable true over a schema, as the source writes with
object spread syntax in the union case of resolveTSNodeType. -/
def withNullable (s : Schema) : Schema :=
  .mk { s.f with nullable? := some true }

/-- Association list lookup with string keys, modelling property access
on a plain JavaScript object used as a dictionary. -/
def alookup : List (String × α) → String → Option α
  | [], _ => none
  | (k, v) :: m, key => if k = key then some v else alookup m key

/-- Association list update, modelling JavaScript property assignment: an
existing key keeps its position and gets the new value, a new key is
appended at the end. -/
def aupsert : List (String × α) → String → α → List (String × α)
  | [], key, v => [(key, v)]
  | (k, w) :: m, key, v =>
    if k = key then (k, v) :: m else (k, w) :: aupsert m key v

/-- Folding a list of assignments into an object, modelling Object.assign
and repeated property assignment in a loop. -/
def aassign (m : List (String × α)) (adds : List (String × α)) :
    List (String × α) :=
  adds.foldl (fun acc kv => aupsert acc kv.1 kv.2) m

@[simp]
theorem alookup_nil (key : String) : alookup ([] : List (String × α)) key = none := rfl

@[simp]
theorem alookup_cons (k : String) (v : α) (m : List (String × α)) (key : String) :
    alookup ((k, v) :: m) key = if k = key then some v else alookup m key := rfl

theorem alookup_aupsert (m : List (String × α)) (k : String) (v : α) (key : String) :
    alookup (aupsert m k v) key = if k = key then some v else alookup m key := by
  induction m with
  | nil => by_cases h : k = key <;> simp [aupsert, alookup, h]
  | cons p m ih =>
    obtain ⟨k0, w⟩ := p
    by_cases h0 : k0 = k
    · subst h0
      by_cases h : k0 = key <;> simp [aupsert, alookup, h]
    · by_cases h : k0 = key
      · subst h
        have : ¬ k = k0 := fun hh => h0 hh.symm
        simp [aupsert, alookup, h0, this]
      · simp [aupsert, alookup, h0, h, ih]

theorem alookup_aupsert_same (m : List (String × α)) (k : String) (v : α) :
    alookup (aupsert m k v) k = some v := by
  simp [alookup_aupsert]

theorem alookup_aupsert_other (m : List (String × α)) (k : String) (v : α)
    (key : String) (h : k ≠ key) :
    alookup (aupsert m k v) key = alookup m key := by
  rw [alookup_aupsert, if_neg h]

/-- State-threading map over a list, used to model loops of the source
that both build a list and mutate resolver state. -/
def stMap (f : α → σ → β × σ) : List α → σ → List β × σ
  | [], st => ([], st)
  | a :: as, st =>
    let (b, st1) := f a st
    let (bs, st2) := stMap f as st1
    (b :: bs, st2)

@[simp]
theorem stMap_nil (f : α → σ → β × σ) (st : σ) : stMap f [] st = ([], st) := rfl

@[simp]
theorem stMap_cons (f : α → σ → β × σ) (a : α) (as : List α) (st : σ) :
    stMap f (a :: as) st =
      ((f a st).1 :: (stMap f as (f a st).2).1, (stMap f as (f a st).2).2) := by
  simp [stMap]

/-!
Structural type resolver (src/lib/schema-processor.ts, schemaType
"typescript").  TSType models the subset of TypeScript type nodes that
resolveTSNodeType recognizes: keywords, string, number and boolean
literal types, type references with an identifier name and type
arguments, array types, inline object type literals (each member a
property signature with an identifier key, an optionality flag and an
optional trailing comment), union types and intersection types.
-/

/-- TypeScript type nodes recognized by the resolver. -/
inductive TSType where
  | strKw
  | numKw
  | boolKw
  | anyKw
  | unknownKw
  | voidKw
  | nullKw
  | undefinedKw
  | litStr (v : String)
  | litNum (v : Int)
  | litBool (v : Bool)
  | typeRef (name : String) (params : List TSType)
  | arrayT (elem : TSType)
  | typeLit (members : List (String × Bool × Option String × TSType))
  | unionT (types : List TSType)
  | interT (types : List TSType)

/-- Declarations collected into typeDefinitions by collectTypeDefinitions:
an interface declaration (with its extends clause modelled as the list of
extended type references), an enum declaration (member name and optional
literal initializer), or the typeAnnotation node stored for a type alias
declaration. -/
inductive TSDecl where
  | interfaceD (ext : List TSType)
      (members : List (String × Bool × Option String × TSType))
  | enumD (members : List (String × Option Lit))
  | nodeD (ty : TSType)

/-- Mutable state of the SchemaProcessor: typeDefinitions,
openapiDefinitions, processingTypes, the processSchemaTracker (flattened
to one scanned file, so keyed by schema name), the isResolvingPickOmitBase
flag, and contentType. -/
structure TSState where
  typeDefs : List (String × TSDecl) := []
  defs : List (String × Schema) := []
  processing : List String := []
  tracker : List String := []
  isResolvingPickOmitBase : Bool := false
  contentType : String := ""

/-- The initial state of a fresh SchemaProcessor. -/
def initialTSState : TSState := {}

/-- Default object schema, the untyped fallback of resolveTSNodeType. -/
def objDefault : Schema := .mk { type? := some "object" }

/-- True for the literal type nodes, mirroring isTSLiteralType over this
grammar. -/
def isLitT : TSType → Bool
  | .litStr _ => true
  | .litNum _ => true
  | .litBool _ => true
  | _ => false

/-- Literal value extraction used in the union case of resolveTSNodeType:
string, numeric and boolean literals produce a value, everything else
maps to null and is filtered out. -/
def litValue? : TSType → Option Lit
  | .litStr v => some (.s v)
  | .litNum v => some (.n v)
  | .litBool v => some (.b v)
  | _ => none

/-- True for the null-like keywords filtered by the union case:
TSNullKeyword, TSUndefinedKeyword and TSVoidKeyword. -/
def isNullishT : TSType → Bool
  | .voidKw => true
  | .nullKw => true
  | .undefinedKw => true
  | _ => false

/-- processEnum of the source: type is number when any member has a
numeric literal initializer, else string; each pushed value is the
initializer value when it is truthy, else the member name. -/
def processEnum (ms : List (String × Option Lit)) : Schema :=
  let ty := if ms.any (fun m => match m.2 with | some (.n _) => true | _ => false)
            then "number" else "string"
  let vals := ms.map (fun m =>
    match m.2 with
    | some v => if litTruthy v then v else Lit.s m.1
    | none => Lit.s m.1)
  .mk { type? := some ty, enum? := some vals }

/-- extractKeysFromLiteralType of the source: a single string literal
type gives a one-key list, a union collects its string literal members,
anything else gives no keys. -/
def extractKeysFromLiteralType : TSType → List String
  | .litStr v => [v]
  | .unionT ts => ts.filterMap (fun t => match t with
      | .litStr v => some v
      | _ => none)
  | _ => []

/-- Enum collapse attempt of the union case of resolveTSNodeType: when
every union member is a literal type, the extracted literal values are
non-empty and all of one typeof kind, the union collapses to a single
enum schema of that kind. -/
def unionEnumCase (types : List TSType) : Option Schema :=
  let literals := types.filter isLitT
  if literals.length = types.length then
    match literals.filterMap litValue? with
    | [] => none
    | v :: vs =>
      if vs.all (fun w => litTypeof w = litTypeof v) then
        some (Schema.mk { type? := some (litTypeof v), enum? := some (v :: vs) })
      else none
  else none

/-- getPropertyOptions of the source, as the pair of option fields it can
set: the trimmed first trailing comment when non-empty becomes the
description, and when the current contentType is body the nullable flag
is set to the optionality of the member. -/
def getPropertyOptions (optional : Bool) (trailing? : Option String)
    (contentType : String) : Option String × Option Bool :=
  let description := match trailing? with
    | some c => if c.trim ≠ "" then some c.trim else none
    | none => none
  (description, if contentType = "body" then some optional else none)

/-- Object spread of the options returned by getPropertyOptions over a
resolved schema: fields present in the options override the base. -/
def spreadOptions (s : Schema) (o : Option String × Option Bool) : Schema :=
  .mk { s.f with
        description? := match o.1 with | some d => some d | none => s.f.description?
        nullable? := match o.2 with | some b => some b | none => s.f.nullable? }

/-- Body of the member loop of the interface/object branch of
resolveType: resolves the member type through the given recursive
resolver and upserts the spread of the property options over it. -/
def tsMemberEntry (recNode : Option TSType → TSState → Schema × TSState)
    (acc : List (String × Schema) × TSState)
    (m : String × Bool × Option String × TSType) :
    List (String × Schema) × TSState :=
  let (pname, opt, cmt, ty) := m
  let options := getPropertyOptions opt cmt acc.2.contentType
  let (rsch, stx) := recNode (some ty) acc.2
  (aupsert acc.1 pname (spreadOptions rsch options), stx)

/-- Projection of the Pick branch: keep, in key order, the base
properties named by the keys. -/
def pickProps (bprops : List (String × Schema)) (keyNames : List String) :
    List (String × Schema) :=
  keyNames.foldl (fun acc key =>
    match alookup bprops key with
    | some v => aupsert acc key v
    | none => acc) []

/-- Projection of the Omit branch: keep the base properties whose name
is not among the keys. -/
def omitProps (bprops : List (String × Schema)) (keyNames : List String) :
    List (String × Schema) :=
  bprops.foldl (fun acc kv =>
    if kv.1 ∈ keyNames then acc else aupsert acc kv.1 kv.2) []

/-- Requests of the structural resolver step function, one per mutually
recursive method of the SchemaProcessor. -/
inductive TReq where
  | resolveType (name : String)
  | resolveNode (node? : Option TSType)
  | findSchemaDefinition (name : String) (contentType : String)
  | processSchemaFile (name : String)

/-- Body of the TypeScript branch of findSchemaDefinition: set the
content type and process the file of the named schema (the directory
scan is flattened into the declaration environment). -/
def findSchemaDefinitionStep (recProcess : String → TSState → Schema × TSState)
    (name ct : String) (st : TSState) : Schema × TSState :=
  let st0 := { st with contentType := ct }
  let (_, st1) := recProcess name st0
  (emptyS, st1)

/-- Body of processSchemaFile: tracker check, collection of the
declaration into typeDefinitions, resolution with a cleared
processingTypes set, and registration into openapiDefinitions unless the
Pick/Omit-base flag is set. -/
def processSchemaFileStep (env : List (String × TSDecl))
    (recResolve : String → TSState → Schema × TSState)
    (name : String) (st : TSState) : Schema × TSState :=
  if name ∈ st.tracker then (emptyS, st)
  else
    let st1 := match alookup env name with
      | some d => { st with typeDefs := aupsert st.typeDefs name d }
      | none => st
    let st2 := { st1 with processing := [] }
    let (definition, st3) := recResolve name st2
    let st4 :=
      if st3.isResolvingPickOmitBase then st3
      else { st3 with defs := aupsert st3.defs name definition }
    (definition, { st4 with tracker := name :: st4.tracker })

/-- Body of resolveType: cycle check through processingTypes, then
dispatch on the collected declaration. -/
def resolveTypeStep (recNode : Option TSType → TSState → Schema × TSState)
    (name : String) (st : TSState) : Schema × TSState :=
  if name ∈ st.processing then (refSchema name, st)
  else
    let stp := { st with processing := name :: st.processing }
    let finish := fun (r : Schema × TSState) =>
      (r.1, { r.2 with processing := r.2.processing.erase name })
    let objectBranch := fun (ext : List TSType)
        (members : List (String × Bool × Option String × TSType))
        (stA : TSState) =>
      let e0 := ext.foldl (fun (acc : List (String × Schema) × TSState) e =>
          let (sch, stx) := recNode (some e) acc.2
          match sch.f.properties? with
          | some ps => (aassign acc.1 ps, stx)
          | none => (acc.1, stx)) ([], stA)
      let m0 := members.foldl (tsMemberEntry recNode) e0
      (Schema.mk { type? := some "object", properties? := some m0.1 }, m0.2)
    match alookup stp.typeDefs name with
    | none => finish (emptyS, stp)
    | some d =>
      match d with
      | .enumD ms => finish (processEnum ms, stp)
      | .interfaceD ext members => finish (objectBranch ext members stp)
      | .nodeD t =>
        match t with
        | .typeLit members => finish (objectBranch [] members stp)
        | .arrayT el =>
          let (s, st1) := recNode (some el) stp
          finish (Schema.mk { type? := some "array", items? := some s }, st1)
        | .unionT ts => finish (recNode (some (.unionT ts)) stp)
        | .typeRef nm ps => finish (recNode (some (.typeRef nm ps)) stp)
        | _ => finish (emptyS, stp)

/-- Body of resolveTSNodeType: the dispatch over the type node grammar,
with recursive resolution through the given callbacks. -/
def resolveNodeStep (recNode : Option TSType → TSState → Schema × TSState)
    (recFind : String → String → TSState → Schema × TSState)
    (recResolve : String → TSState → Schema × TSState)
    (node? : Option TSType) (st : TSState) : Schema × TSState :=
  match node? with
  | none => (objDefault, st)
  | some n =>
    match n with
    | .strKw => (Schema.mk { type? := some "string" }, st)
    | .numKw => (Schema.mk { type? := some "number" }, st)
    | .boolKw => (Schema.mk { type? := some "boolean" }, st)
    | .anyKw => (objDefault, st)
    | .unknownKw => (objDefault, st)
    | .voidKw => (Schema.mk { type? := some "null" }, st)
    | .nullKw => (Schema.mk { type? := some "null" }, st)
    | .undefinedKw => (Schema.mk { type? := some "null" }, st)
    | .litStr v => (Schema.mk { type? := some "string", enum? := some [.s v] }, st)
    | .litNum v => (Schema.mk { type? := some "number", enum? := some [.n v] }, st)
    | .litBool v => (Schema.mk { type? := some "boolean", enum? := some [.b v] }, st)
    | .typeRef name params =>
      let general := fun (stG : TSState) =>
        if name ∈ stG.processing then (refSchema name, stG)
        else
          let (_, st1) := recFind name stG.contentType stG
          recResolve name st1
      if name = "Date" then
        (Schema.mk { type? := some "string", format? := some "date-time" }, st)
      else if name = "Array" ∨ name = "ReadonlyArray" then
        match params with
        | p :: _ =>
          let (s, st1) := recNode (some p) st
          (Schema.mk { type? := some "array", items? := some s }, st1)
        | [] => (Schema.mk { type? := some "array", items? := some objDefault }, st)
      else if name = "Record" then
        match params with
        | p0 :: p1 :: _ =>
          let (_, st1) := recNode (some p0) st
          let (v, st2) := recNode (some p1) st1
          (Schema.mk { type? := some "object", additionalProperties? := some v }, st2)
        | _ =>
          (Schema.mk { type? := some "object", additionalPropertiesB? := some true }, st)
      else if name = "Partial" ∨ name = "Required" ∨ name = "Readonly" then
        match params with
        | p :: _ => recNode (some p) st
        | [] => general st
      else if name = "Pick" ∨ name = "Omit" then
        match params with
        | p0 :: p1 :: _ =>
          let st1 := { st with isResolvingPickOmitBase := true }
          let (baseType, st2) := recNode (some p0) st1
          let st3 := { st2 with isResolvingPickOmitBase := false }
          match baseType.f.properties? with
          | some bprops =>
            let keyNames := extractKeysFromLiteralType p1
            let props :=
              if name = "Pick" then pickProps bprops keyNames
              else omitProps bprops keyNames
            (Schema.mk { type? := some "object", properties? := some props }, st3)
          | none => recNode (some p0) st3
        | p0 :: [] => recNode (some p0) st
        | [] => general st
      else general st
    | .arrayT el =>
      let (s, st1) := recNode (some el) st
      (Schema.mk { type? := some "array", items? := some s }, st1)
    | .typeLit members =>
      let m0 := members.foldl (fun (acc : List (String × Schema) × TSState) m =>
          let (pname, _, _, ty) := m
          let (s, stx) := recNode (some ty) acc.2
          (aupsert acc.1 pname s, stx)) ([], st)
      (Schema.mk { type? := some "object", properties? := some m0.1 }, m0.2)
    | .unionT types =>
      match unionEnumCase types with
      | some s => (s, st)
      | none =>
        let nullableTypes := types.filter isNullishT
        let nonNullableTypes := types.filter (fun x => !isNullishT x)
        if nullableTypes.length > 0 ∧ nonNullableTypes.length = 1 then
          match nonNullableTypes with
          | t0 :: _ =>
            let (mainType, st1) := recNode (some t0) st
            (withNullable mainType, st1)
          | [] => (objDefault, st)
        else
          let r := stMap (fun t stx => recNode (some t) stx) nonNullableTypes st
          (Schema.mk { oneOf? := some r.1 }, r.2)
    | .interT types =>
      let r := types.foldl
        (fun (a : (List (String × Schema) × List String) × TSState) t =>
          let (resolved, stx) := recNode (some t) a.2
          if resolved.f.type? = some "object" then
            match resolved.f.properties? with
            | some ps =>
              let b := ps.foldl (fun (b : List (String × Schema) × List String) kv =>
                  (aupsert b.1 kv.1 kv.2,
                   if (kv.2.f.required?).isSome then b.2 ++ [kv.1] else b.2)) a.1
              (b, stx)
            | none => (a.1, stx)
          else (a.1, stx)) (([], []), st)
      (Schema.mk { type? := some "object", properties? := some r.1.1,
                   required? := if r.1.2.length > 0 then some r.1.2 else none }, r.2)

/-- One fuelled step function covering resolveType, resolveTSNodeType,
the TypeScript branch of findSchemaDefinition (whose directory scan is
flattened into a lookup of the declaration environment env), and
processSchemaFile.  Fuel zero returns the empty schema and leaves the
state unchanged. -/
def tstep (env : List (String × TSDecl)) : Nat → TReq → TSState → Schema × TSState
  | 0, _, st => (emptyS, st)
  | fuel + 1, .findSchemaDefinition name ct, st =>
    findSchemaDefinitionStep (fun n s => tstep env fuel (.processSchemaFile n) s)
      name ct st
  | fuel + 1, .processSchemaFile name, st =>
    processSchemaFileStep env (fun n s => tstep env fuel (.resolveType n) s) name st
  | fuel + 1, .resolveType name, st =>
    resolveTypeStep (fun n s => tstep env fuel (.resolveNode n) s) name st
  | fuel + 1, .resolveNode node?, st =>
    resolveNodeStep (fun n s => tstep env fuel (.resolveNode n) s)
      (fun n c s => tstep env fuel (.findSchemaDefinition n c) s)
      (fun n s => tstep env fuel (.resolveType n) s) node? st

/-- resolveType of the SchemaProcessor. -/
def resolveType (env : List (String × TSDecl)) (fuel : Nat) (name : String)
    (st : TSState) : Schema × TSState :=
  tstep env fuel (.resolveType name) st

/-- resolveTSNodeType of the SchemaProcessor. -/
def resolveTSNodeType (env : List (String × TSDecl)) (fuel : Nat)
    (node? : Option TSType) (st : TSState) : Schema × TSState :=
  tstep env fuel (.resolveNode node?) st

/-- findSchemaDefinition of the SchemaProcessor, TypeScript branch. -/
def findSchemaDefinition (env : List (String × TSDecl)) (fuel : Nat)
    (name contentType : String) (st : TSState) : TSState :=
  (tstep env fuel (.findSchemaDefinition name contentType) st).2

/-- One slot of getSchemaContent: an already resolved definition is used
directly, otherwise findSchemaDefinition is run and the definition table
consulted again, defaulting to the empty schema. -/
def getSchemaContentSlot (env : List (String × TSDecl)) (fuel : Nat)
    (name contentType : String) (st : TSState) : Schema × TSState :=
  match alookup st.defs name with
  | some s => (s, st)
  | none =>
    let st1 := findSchemaDefinition env fuel name contentType st
    ((alookup st1.defs name).getD emptyS, st1)

/-!
Zod schema converter (src/lib/zod-converter.ts).  ZExpr models the
expression subset the converter pattern-matches: identifiers, literals,
regular-expression literals, object and array expressions, arrow
functions, and call expressions whose callee is a member expression with
an identifier property (written memberCall obj method args for
obj.method(args)).  Directory scanning is flattened into a declaration
environment from schema name to its initializer expression, and the
pre-scan type-alias mapping is carried in the state.
-/

/-- Expression nodes recognized by the zod converter. -/
inductive ZExpr where
  | ident (name : String)
  | strLit (v : String)
  | numLit (v : Int)
  | boolLit (v : Bool)
  | nullLit
  | regexLit (pat : String)
  | objExpr (props : List (String × ZExpr))
  | arrExpr (elems : List ZExpr)
  | arrow (body : ZExpr)
  | memberCall (obj : ZExpr) (method : String) (args : List ZExpr)

/-- Mutable state of the ZodSchemaConverter: the zodSchemas cache, the
processingSchemas cycle set, and the typeToSchemaMapping built by the
pre-scan. -/
structure ZState where
  zodSchemas : List (String × Schema) := []
  processingSchemas : List String := []
  typeToSchemaMapping : List (String × String) := []

/-- The initial state of a fresh ZodSchemaConverter. -/
def initialZState : ZState := {}

/-- hasOptionalMethod of the source: walks a call chain from the
outermost call inward and reports whether some link is named optional,
nullable or nullish. -/
def hasOptionalMethod : ZExpr → Bool
  | .memberCall obj m _ =>
    if m = "optional" ∨ m = "nullable" ∨ m = "nullish" then true
    else
      match obj with
      | .memberCall o2 m2 a2 => hasOptionalMethod (.memberCall o2 m2 a2)
      | _ => false
  | _ => false

/-- isOptional of the source: true for a direct call named optional, and
for longer chains it defers to hasOptionalMethod. -/
def isOptional : ZExpr → Bool
  | .memberCall obj m args =>
    if m = "optional" then true
    else
      match obj with
      | .memberCall o2 m2 a2 => hasOptionalMethod (.memberCall (.memberCall o2 m2 a2) m args)
      | _ => false
  | _ => false

/-- extractDescriptionFromArguments of the source. -/
def extractDescriptionFromArguments : ZExpr → Option String
  | .memberCall _ m args =>
    if m = "describe" then
      match args with
      | .strLit d :: _ => some d
      | _ => none
    else none
  | _ => none

/-- isZodSchema of the source: a call rooted, through member calls, in
the identifier z. -/
def isZodSchema : ZExpr → Bool
  | .memberCall (.ident z) _ _ => z = "z"
  | .memberCall (.memberCall o m a) _ _ => isZodSchema (.memberCall o m a)
  | _ => false

/-- escapeRegExp of the source: backslash-escape regex metacharacters. -/
def escapeRegExp (s : String) : String :=
  String.mk (s.toList.flatMap (fun c =>
    if c ∈ ['.', '*', '+', '?', '^', '$', '\x7b', '\x7d', '(', ')', '|', '[', ']', '\\']
    then ['\\', c] else [c]))

/-- processZodLiteral of the source, taking the argument list of the
call. -/
def processZodLiteral (args : List ZExpr) : Schema :=
  match args with
  | [] => .mk { type? := some "string" }
  | a :: _ =>
    match a with
    | .strLit v => .mk { type? := some "string", enum? := some [.s v] }
    | .numLit v => .mk { type? := some "number", enum? := some [.n v] }
    | .boolLit v => .mk { type? := some "boolean", enum? := some [.b v] }
    | _ => .mk { type? := some "string" }

/-- removal of duplicates keeping first occurrences, as the source
writes with filter and indexOf in the extend merge. -/
def firstDedupAux (seen : List String) : List String → List String
  | [] => []
  | x :: xs =>
    if x ∈ seen then firstDedupAux seen xs else x :: firstDedupAux (x :: seen) xs

/-- removal of duplicates keeping first occurrences, entry point. -/
def firstDedup (l : List String) : List String := firstDedupAux [] l

/-- Pure refinement cases of the switch in processZodChain: every case
that only rewrites schema fields.  The cases extend, or and and, which
recurse into other schemas, live in the step function itself; refine,
superRefine, transform, finite and unknown method names leave the schema
unchanged, as in the source.  The endsWith case of the source falls
through into the includes case for lack of a break, but both assign the
same escaped pattern, so one assignment models it. -/
def applyChainMethod (m : String) (args : List ZExpr) (s : Schema) : Schema :=
  if m = "optional" ∨ m = "nullable" ∨ m = "nullish" then
    .mk { s.f with nullable? := some true }
  else if m = "describe" then
    match args with
    | .strLit d :: _ => .mk { s.f with description? := some d }
    | _ => s
  else if m = "deprecated" then .mk { s.f with deprecated? := some true }
  else if m = "min" then
    match args with
    | .numLit v :: _ =>
      if s.f.type? = some "string" then .mk { s.f with minLength? := some v }
      else if s.f.type? = some "number" ∨ s.f.type? = some "integer" then
        .mk { s.f with minimum? := some v }
      else if s.f.type? = some "array" then .mk { s.f with minItems? := some v }
      else s
    | _ => s
  else if m = "max" then
    match args with
    | .numLit v :: _ =>
      if s.f.type? = some "string" then .mk { s.f with maxLength? := some v }
      else if s.f.type? = some "number" ∨ s.f.type? = some "integer" then
        .mk { s.f with maximum? := some v }
      else if s.f.type? = some "array" then .mk { s.f with maxItems? := some v }
      else s
    | _ => s
  else if m = "length" then
    match args with
    | .numLit v :: _ =>
      if s.f.type? = some "string" then
        .mk { s.f with minLength? := some v, maxLength? := some v }
      else if s.f.type? = some "array" then
        .mk { s.f with minItems? := some v, maxItems? := some v }
      else s
    | _ => s
  else if m = "email" then .mk { s.f with format? := some "email" }
  else if m = "url" ∨ m = "uri" then .mk { s.f with format? := some "uri" }
  else if m = "uuid" then .mk { s.f with format? := some "uuid" }
  else if m = "cuid" then .mk { s.f with format? := some "cuid" }
  else if m = "regex" then
    match args with
    | .regexLit p :: _ => .mk { s.f with pattern? := some p }
    | _ => s
  else if m = "startsWith" then
    match args with
    | .strLit v :: _ => .mk { s.f with pattern? := some ("^" ++ escapeRegExp v) }
    | _ => s
  else if m = "endsWith" ∨ m = "includes" then
    match args with
    | .strLit v :: _ => .mk { s.f with pattern? := some (escapeRegExp v) }
    | _ => s
  else if m = "int" then .mk { s.f with type? := some "integer" }
  else if m = "positive" then
    .mk { s.f with minimum? := some 0, exclusiveMinimum? := some true }
  else if m = "nonnegative" then .mk { s.f with minimum? := some 0 }
  else if m = "negative" then
    .mk { s.f with maximum? := some 0, exclusiveMaximum? := some true }
  else if m = "nonpositive" then .mk { s.f with maximum? := some 0 }
  else if m = "safe" then
    .mk { s.f with minimum? := some (-9007199254740991), maximum? := some 9007199254740991 }
  else if m = "default" then
    match args with
    | .strLit v :: _ => .mk { s.f with default? := some (.lit (.s v)) }
    | .numLit v :: _ => .mk { s.f with default? := some (.lit (.n v)) }
    | .boolLit v :: _ => .mk { s.f with default? := some (.lit (.b v)) }
    | .nullLit :: _ => .mk { s.f with default? := some .nullV }
    | .objExpr props :: _ =>
      .mk { s.f with default? := some (.objV (props.filterMap (fun kv =>
        match kv.2 with
        | .strLit x => some (kv.1, Lit.s x)
        | .numLit x => some (kv.1, Lit.n x)
        | .boolLit x => some (kv.1, Lit.b x)
        | _ => none))) }
    | _ => s
  else s

/-- Null detection of processZodUnion.  The second disjunct of the
source, a one-element enum whose value is the null literal, cannot arise
in this model because literal lists never hold null, so only the type
null test remains. -/
def isNullUnionItem (s : Schema) : Bool :=
  s.f.type? = some "null"

/-- Requests of the zod converter step function, one per method. -/
inductive ZReq where
  | node (e : ZExpr)
  | chain (e : ZExpr)
  | primitive (e : ZExpr)
  | objectE (e : ZExpr)
  | unionE (e : ZExpr)
  | intersectionE (e : ZExpr)
  | tupleE (e : ZExpr)
  | discUnionE (e : ZExpr)
  | lazyE (e : ZExpr)
  | convert (name : String)

/-- Processing of one property of a z.object argument, mirroring the
body of the forEach in processZodObject.  The recursive calls are passed
in as functions.  The branch of the source for z.array with an identifier
argument is unreachable: its guard requires the callee object to be the
identifier z, which the first branch already captures, so it is not
repeated here. -/
def zObjEntry
    (recNode : ZExpr → ZState → Option Schema × ZState)
    (recConvert : String → ZState → Option Schema × ZState)
    (acc : (List (String × Schema) × List String) × ZState)
    (p : String × ZExpr) : (List (String × Schema) × List String) × ZState :=
  let propName := p.1
  let v := p.2
  let props := acc.1.1
  let required := acc.1.2
  let st := acc.2
  match v with
  | .memberCall (.ident schemaName) methodName args =>
    let st1 := if (alookup st.zodSchemas schemaName).isSome then st
               else (recConvert schemaName st).2
    if methodName = "describe" ∧ (alookup st1.zodSchemas schemaName).isSome then
      match args with
      | .strLit d :: _ =>
        ((aupsert props propName (Schema.mk { description? := some d,
                                              allOf? := some [refSchema schemaName] }),
          required ++ [propName]), st1)
      | _ =>
        ((aupsert props propName (refSchema schemaName), required ++ [propName]), st1)
    else
      let r := recNode v st1
      match r.1 with
      | some psc =>
        let isOpt := isOptional v || hasOptionalMethod v
        ((aupsert props propName psc,
          if isOpt then required else required ++ [propName]), r.2)
      | none => ((props, required), r.2)
  | _ =>
    let step1 :=
      match v with
      | .ident referencedSchemaName =>
        let st1 := if (alookup st.zodSchemas referencedSchemaName).isSome then st
                   else (recConvert referencedSchemaName st).2
        ((aupsert props propName (refSchema referencedSchemaName),
          required ++ [propName]), st1)
      | _ => ((props, required), st)
    let r := recNode v step1.2
    match r.1 with
    | some psc =>
      let isOpt := isOptional v || hasOptionalMethod v
      ((aupsert step1.1.1 propName psc,
        if isOpt then step1.1.2 else step1.1.2 ++ [propName]), r.2)
    | none => (step1.1, r.2)

/-- One fuelled step function covering processZodNode, processZodChain,
processZodPrimitive, processZodObject, processZodUnion,
processZodIntersection, processZodTuple, processZodDiscriminatedUnion,
processZodLazy and convertZodSchemaToOpenApi.  A convert request answers
with none when the name resolves to no declaration.  Fuel zero returns
none; where the source uses the result of processZodNode directly, the
embedding defaults that impossible none to the empty schema. -/
def zstep (zenv : List (String × ZExpr)) : Nat → ZReq → ZState → Option Schema × ZState
  | 0, _, st => (none, st)
  | fuel + 1, .convert name, st =>
    let name1 := match alookup st.typeToSchemaMapping name with
      | some m => m
      | none => name
    if name1 ∈ st.processingSchemas then (some (refSchema name1), st)
    else
      let st1 := { st with processingSchemas := name1 :: st.processingSchemas }
      let finishZ := fun (r : Option Schema × ZState) =>
        (r.1, { r.2 with processingSchemas := r.2.processingSchemas.erase name1 })
      match alookup st1.zodSchemas name1 with
      | some s => finishZ (some s, st1)
      | none =>
        match alookup zenv name1 with
        | none => finishZ (none, st1)
        | some decl =>
          let r := zstep zenv fuel (.node decl) st1
          match r.1 with
          | some s =>
            finishZ (some s, { r.2 with zodSchemas := aupsert r.2.zodSchemas name1 s })
          | none => finishZ (none, r.2)
  | fuel + 1, .node e, st =>
    match e with
    | .memberCall (.ident obj) m args =>
      if m = "extend" then
        let st1 := if (alookup st.zodSchemas obj).isSome then st
                   else (zstep zenv fuel (.convert obj) st).2
        zstep zenv fuel (.chain (.memberCall (.ident obj) m args)) st1
      else if obj = "z" then
        if m = "object" ∧ args.isEmpty = false then
          zstep zenv fuel (.objectE (.memberCall (.ident obj) m args)) st
        else if m = "union" ∧ args.isEmpty = false then
          zstep zenv fuel (.unionE (.memberCall (.ident obj) m args)) st
        else if m = "intersection" ∧ args.isEmpty = false then
          zstep zenv fuel (.intersectionE (.memberCall (.ident obj) m args)) st
        else if m = "tuple" ∧ args.isEmpty = false then
          zstep zenv fuel (.tupleE (.memberCall (.ident obj) m args)) st
        else if m = "discriminatedUnion" ∧ args.length > 1 then
          zstep zenv fuel (.discUnionE (.memberCall (.ident obj) m args)) st
        else if m = "literal" ∧ args.isEmpty = false then (some (processZodLiteral args), st)
        else zstep zenv fuel (.primitive (.memberCall (.ident obj) m args)) st
      else (some objDefault, st)
    | .memberCall (.memberCall o2 m2 a2) m args =>
      zstep zenv fuel (.chain (.memberCall (.memberCall o2 m2 a2) m args)) st
    | _ => (some objDefault, st)
  | fuel + 1, .lazyE e, st =>
    match e with
    | .memberCall _ _ (.arrow body :: _) =>
      match body with
      | .ident schemaName => (some (refSchema schemaName), st)
      | _ => zstep zenv fuel (.node body) st
    | _ => (some objDefault, st)
  | fuel + 1, .chain e, st =>
    match e with
    | .memberCall obj m args =>
      let r0 := zstep zenv fuel (.node obj) st
      let schema := r0.1.getD emptyS
      if m = "extend" then
        match args with
        | .objExpr ps :: _ =>
          let rb := zstep zenv fuel (.node obj) r0.2
          let baseSchema := rb.1.getD emptyS
          let extendNode : ZExpr := .memberCall (.ident "z") "object" [.objExpr ps]
          let re := zstep zenv fuel (.objectE extendNode) rb.2
          let extendedProps := re.1.getD emptyS
          match baseSchema.f.properties? with
          | some bps =>
            let merged : Schema := .mk {
              type? := some "object"
              properties? := some (aassign bps (extendedProps.f.properties?.getD []))
              required? := some (firstDedup ((baseSchema.f.required?.getD []) ++
                (extendedProps.f.required?.getD [])))
              description? := baseSchema.f.description? }
            (some merged, re.2)
          | none => (some extendedProps, re.2)
        | _ => (some schema, r0.2)
      else if m = "or" then
        match args with
        | a :: _ =>
          let ra := zstep zenv fuel (.node a) r0.2
          match ra.1 with
          | some alt => (some (Schema.mk { oneOf? := some [schema, alt] }), ra.2)
          | none => (some schema, ra.2)
        | [] => (some schema, r0.2)
      else if m = "and" then
        match args with
        | a :: _ =>
          let ra := zstep zenv fuel (.node a) r0.2
          match ra.1 with
          | some add => (some (Schema.mk { allOf? := some [schema, add] }), ra.2)
          | none => (some schema, ra.2)
        | [] => (some schema, r0.2)
      else (some (applyChainMethod m args schema), r0.2)
    | _ => (some objDefault, st)
  | fuel + 1, .primitive e, st =>
    match e with
    | .memberCall _ m args =>
      let base : Schema × ZState :=
        if m = "string" then (.mk { type? := some "string" }, st)
        else if m = "number" then (.mk { type? := some "number" }, st)
        else if m = "boolean" then (.mk { type? := some "boolean" }, st)
        else if m = "date" then (.mk { type? := some "string", format? := some "date-time" }, st)
        else if m = "bigint" then (.mk { type? := some "integer", format? := some "int64" }, st)
        else if m = "any" ∨ m = "unknown" then (emptyS, st)
        else if m = "null" ∨ m = "undefined" then (.mk { type? := some "null" }, st)
        else if m = "array" then
          match args with
          | .ident schemaName :: _ =>
            let st1 := if (alookup st.zodSchemas schemaName).isSome then st
                       else (zstep zenv fuel (.convert schemaName) st).2
            (.mk { type? := some "array", items? := some (refSchema schemaName) }, st1)
          | a :: _ =>
            let r := zstep zenv fuel (.node a) st
            (.mk { type? := some "array", items? := some (r.1.getD emptyS) }, r.2)
          | [] => (.mk { type? := some "array",
                         items? := some (.mk { type? := some "string" }) }, st)
        else if m = "enum" then
          match args with
          | .arrExpr elems :: _ =>
            let enumValues := elems.filterMap (fun el =>
              match el with
              | .strLit v => some (Lit.s v)
              | .numLit v => some (Lit.n v)
              | _ => none)
            let valueType := match enumValues.head? with
              | some (.n _) => "number"
              | _ => "string"
            (.mk { type? := some valueType, enum? := some enumValues }, st)
          | .objExpr props :: _ =>
            let enumValues := props.filterMap (fun kv =>
              match kv.2 with
              | .strLit v => some (Lit.s v)
              | _ => none)
            if enumValues.length > 0 then
              (.mk { type? := some "string", enum? := some enumValues }, st)
            else (.mk { type? := some "string" }, st)
          | _ => (.mk { type? := some "string" }, st)
        else if m = "record" then
          match args with
          | a :: _ =>
            let r := zstep zenv fuel (.node a) st
            (.mk { type? := some "object", additionalProperties? := some (r.1.getD emptyS) }, r.2)
          | [] => (.mk { type? := some "object",
                         additionalProperties? := some (.mk { type? := some "string" }) }, st)
        else if m = "map" then
          (.mk { type? := some "object", additionalPropertiesB? := some true }, st)
        else if m = "set" then
          match args with
          | a :: _ =>
            let r := zstep zenv fuel (.node a) st
            (.mk { type? := some "array", items? := some (r.1.getD emptyS),
                   uniqueItems? := some true }, r.2)
          | [] => (.mk { type? := some "array",
                         items? := some (.mk { type? := some "string" }),
                         uniqueItems? := some true }, st)
        else if m = "object" then
          if args.isEmpty = false then
            let r := zstep zenv fuel (.objectE e) st
            (r.1.getD emptyS, r.2)
          else (objDefault, st)
        else (.mk { type? := some "string" }, st)
      match extractDescriptionFromArguments e with
      | some d => (some (Schema.mk { base.1.f with description? := some d }), base.2)
      | none => (some base.1, base.2)
    | _ => (some (.mk { type? := some "string" }), st)
  | fuel + 1, .objectE e, st =>
    match e with
    | .memberCall _ _ (.objExpr props :: _) =>
      let r := props.foldl
        (zObjEntry (fun ex stx => zstep zenv fuel (.node ex) stx)
                   (fun nm stx => zstep zenv fuel (.convert nm) stx))
        (([], []), st)
      (some (Schema.mk { type? := some "object", properties? := some r.1.1,
                         required? := if r.1.2.length > 0 then some r.1.2 else none }),
       r.2)
    | _ => (some objDefault, st)
  | fuel + 1, .unionE e, st =>
    match e with
    | .memberCall _ _ (.arrExpr elems :: _) =>
      let r := stMap (fun el stx =>
        let x := zstep zenv fuel (.node el) stx
        (x.1.getD emptyS, x.2)) elems st
      let unionItems := r.1
      let nullable2 : Option Schema :=
        if unionItems.length = 2 ∧ unionItems.any isNullUnionItem then
          match unionItems.find? (fun item => ¬ isNullUnionItem item) with
          | some nonNullItem => some (withNullable nonNullItem)
          | none => none
        else none
      match nullable2 with
      | some s => (some s, r.2)
      | none =>
        let allSameType :=
          match unionItems with
          | [] => false
          | h :: _ => unionItems.all (fun item =>
              item.f.type? = h.f.type? ∧ item.f.enum?.isSome)
        if allSameType then
          let combinedEnums := unionItems.flatMap (fun item => item.f.enum?.getD [])
          match unionItems with
          | h :: _ => (some (Schema.mk { type? := h.f.type?, enum? := some combinedEnums }), r.2)
          | [] => (some (Schema.mk { oneOf? := some unionItems }), r.2)
        else (some (Schema.mk { oneOf? := some unionItems }), r.2)
    | _ => (some objDefault, st)
  | fuel + 1, .intersectionE e, st =>
    match e with
    | .memberCall _ _ (a :: b :: _) =>
      let r1 := zstep zenv fuel (.node a) st
      let r2 := zstep zenv fuel (.node b) r1.2
      (some (Schema.mk { allOf? := some [r1.1.getD emptyS, r2.1.getD emptyS] }), r2.2)
    | _ => (some objDefault, st)
  | fuel + 1, .tupleE e, st =>
    match e with
    | .memberCall _ _ (.arrExpr elems :: _) =>
      let r := stMap (fun el stx =>
        let x := zstep zenv fuel (.node el) stx
        (x.1.getD emptyS, x.2)) elems st
      match r.1 with
      | h :: _ => (some (Schema.mk { type? := some "array", items? := some h }), r.2)
      | [] => (some (Schema.mk { type? := some "array",
                                 items? := some (.mk { type? := some "string" }) }), r.2)
    | _ => (some (Schema.mk { type? := some "array",
                              items? := some (.mk { type? := some "string" }) }), st)
  | fuel + 1, .discUnionE e, st =>
    match e with
    | .memberCall _ _ (a0 :: a1 :: _) =>
      let discriminator := match a0 with
        | .strLit v => v
        | _ => ""
      match a1 with
      | .arrExpr elems =>
        let r := stMap (fun el stx =>
          let x := zstep zenv fuel (.node el) stx
          (x.1.getD emptyS, x.2)) elems st
        if r.1.length = 0 then (some objDefault, r.2)
        else
          (some (Schema.mk { type? := some "object",
                             discriminator? := if discriminator ≠ "" then some discriminator
                                               else none,
                             oneOf? := some r.1 }), r.2)
      | _ => (some objDefault, st)
    | _ => (some objDefault, st)

/-- processZodNode of the ZodSchemaConverter. -/
def processZodNode (zenv : List (String × ZExpr)) (fuel : Nat) (e : ZExpr)
    (st : ZState) : Option Schema × ZState :=
  zstep zenv fuel (.node e) st

/-- processZodObject of the ZodSchemaConverter. -/
def processZodObject (zenv : List (String × ZExpr)) (fuel : Nat) (e : ZExpr)
    (st : ZState) : Option Schema × ZState :=
  zstep zenv fuel (.objectE e) st

/-- convertZodSchemaToOpenApi of the ZodSchemaConverter. -/
def convertZodSchemaToOpenApi (zenv : List (String × ZExpr)) (fuel : Nat)
    (name : String) (st : ZState) : Option Schema × ZState :=
  zstep zenv fuel (.convert name) st

/-- Whitespace characters of the regex class backslash-s, restricted to
the ASCII range used by the claims. -/
def isSpaceChar (c : Char) : Bool :=
  c = ' ' || c = '\t' || c = '\n' || c = '\r' || c = '\x0b' || c = '\x0c'

/-- Both-ends whitespace trim on character lists, as String.prototype
trim. -/
def trimChars (l : List Char) : List Char :=
  ((l.dropWhile isSpaceChar).reverse.dropWhile isSpaceChar).reverse

/-!
Response assembly of the RouteProcessor (src/lib/utils.ts, the class
after the utility functions): buildResponsesFromConfig,
getDefaultSuccessCode, getDefaultErrorDescription, createResponseSchema,
and the response portion of addRouteToPaths.  A response map entry is
either a reference object into components.responses or an inline entry
carrying a description and a schema under content application/json.
-/

/-- The directive record produced by extractJSDocComments, restricted to
the fields that the response assembly reads. -/
structure DataTypes where
  responseType : String := ""
  responseDescription : String := ""
  responseSet : String := ""
  addResponses : String := ""
  successCode : String := ""

/-- The configuration fields that the response assembly reads.  An
absent optional field of the source configuration is modelled by its
falsy default. -/
structure OpenApiConfigR where
  defaultResponseSet : String := ""
  responseSets : List (String × List String) := []

/-- One entry of a response map: a reference object, or an inline entry
with a description and a schema under content application/json. -/
inductive Resp where
  | refR (target : String)
  | inlineR (description : String) (schema : Schema)

/-- ASCII upper-casing of one character, as toUpperCase acts on the
method names in play. -/
def upperChar (c : Char) : Char :=
  if 'a' ≤ c ∧ c ≤ 'z' then Char.ofNat (c.toNat - 32) else c

/-- ASCII upper-casing of a string. -/
def toUpperS (s : String) : String := String.mk (s.toList.map upperChar)

/-- Splitting a character list at a separator character, as the split
calls of the source with one-character separators. -/
def splitOnCharAux (sep : Char) : List Char → List Char → List (List Char)
  | [], acc => [acc.reverse]
  | c :: rest, acc =>
    if c = sep then acc.reverse :: splitOnCharAux sep rest []
    else splitOnCharAux sep rest (c :: acc)

/-- Splitting a string at a separator character. -/
def splitOnStr (sep : Char) (s : String) : List String :=
  (splitOnCharAux sep s.toList []).map String.mk

/-- Whitespace trim at both ends of a string. -/
def trimStr (s : String) : String := String.mk (trimChars s.toList)

/-- getDefaultSuccessCode of the RouteProcessor. -/
def getDefaultSuccessCode (method : String) : String :=
  if toUpperS method = "POST" then "201"
  else if toUpperS method = "DELETE" then "204"
  else "200"

/-- getDefaultErrorDescription of the RouteProcessor.  The source falls
back to an HTTP-prefixed code, so the outer default alternative at its
call site can never fire. -/
def getDefaultErrorDescription (code : String) : String :=
  if code = "400" then "Bad Request"
  else if code = "401" then "Unauthorized"
  else if code = "403" then "Forbidden"
  else if code = "404" then "Not Found"
  else if code = "409" then "Conflict"
  else if code = "422" then "Unprocessable Entity"
  else if code = "429" then "Too Many Requests"
  else if code = "500" then "Internal Server Error"
  else "HTTP " ++ code

/-- Body of the response-set expansion loop of buildResponsesFromConfig:
looks the set name up in the configuration and writes a reference entry
for each of its codes. -/
def expandRespSet (config : OpenApiConfigR) (acc : List (String × Resp))
    (setName : String) : List (String × Resp) :=
  match alookup config.responseSets setName with
  | some responseSet =>
    responseSet.foldl (fun acc2 errorCode =>
      aupsert acc2 errorCode (.refR ("#/components/responses/" ++ errorCode))) acc
  | none => acc

/-- Body of the addResponses loop of buildResponsesFromConfig: an entry
code:RefName becomes an inline entry referencing the named schema, a bare
code (or code with empty reference part) a reference entry. -/
def addRespStep (acc : List (String × Resp)) (responseRef : String) :
    List (String × Resp) :=
  let parts := splitOnStr ':' responseRef
  let code := parts.headD ""
  match parts[1]? with
  | some ref =>
    if ref ≠ "" then
      aupsert acc code (.inlineR (getDefaultErrorDescription code) (refSchema ref))
    else aupsert acc code (.refR ("#/components/responses/" ++ code))
  | none => aupsert acc code (.refR ("#/components/responses/" ++ code))

/-- buildResponsesFromConfig of the RouteProcessor.  The resolved
response schema that the source fetches through getSchemaContent for the
declared response type is passed in as resolvedResponses. -/
def buildResponsesFromConfig (config : OpenApiConfigR) (dataTypes : DataTypes)
    (method : String) (resolvedResponses : Schema) : List (String × Resp) :=
  let responses : List (String × Resp) := []
  let successCode := if dataTypes.successCode ≠ "" then dataTypes.successCode
                     else getDefaultSuccessCode method
  let responses :=
    if dataTypes.responseType ≠ "" then
      aupsert responses successCode (.inlineR
        (if dataTypes.responseDescription ≠ "" then dataTypes.responseDescription
         else "Successful response") resolvedResponses)
    else responses
  let responseSetName := if dataTypes.responseSet ≠ "" then dataTypes.responseSet
                         else config.defaultResponseSet
  let responses :=
    if responseSetName ≠ "" ∧ responseSetName ≠ "none" then
      let setNames := (splitOnStr ',' responseSetName).map trimStr
      setNames.foldl (expandRespSet config) responses
    else responses
  let responses :=
    if dataTypes.addResponses ≠ "" then
      let customResponses := (splitOnStr ',' dataTypes.addResponses).map trimStr
      customResponses.foldl addRespStep responses
    else responses
  responses

/-- createResponseSchema of the SchemaProcessor: a single 200 entry. -/
def createResponseSchema (responses : Schema) (description : String) :
    List (String × Resp) :=
  [("200", .inlineR (if description ≠ "" then description else "Successful response")
      responses)]

/-- The responses slot of getSchemaContent: for an empty response type
the destructured value is the empty object; otherwise the definition
table entry, with the find-and-retry of the source flattened into a
defaulted lookup. -/
def schemaContentResponses (defs : List (String × Schema)) (responseType : String) :
    Schema :=
  if responseType ≠ "" then (alookup defs responseType).getD emptyS else emptyS

/-- Response portion of addRouteToPaths: the configured responses, and
when those are empty the fallback single 200 entry built from the
resolved response schema.  The truthiness test of the source on the
destructured responses value always passes, because getSchemaContent
always returns an object there. -/
def routeResponses (config : OpenApiConfigR) (defs : List (String × Schema))
    (dataTypes : DataTypes) (method : String) : List (String × Resp) :=
  let resolved := schemaContentResponses defs dataTypes.responseType
  let r := buildResponsesFromConfig config dataTypes method resolved
  if r.length = 0 then createResponseSchema resolved dataTypes.responseDescription
  else r

/-!
Path sorting of the RouteProcessor: getSortedPaths and getSwaggerPaths.
Only the tags of an operation matter for the comparison, so a route
definition is represented by its tag list.  The localeCompare of the
source is modelled by code-point lexicographic comparison, and the
length difference it returns for the tie-break by a three-way natural
comparison with the same sign.  The sort of the source is the stable
Array.prototype.sort, modelled by the stable insertion sort of Mathlib,
which produces the same output for a consistent comparator.
-/

/-- One route operation, restricted to the field the path comparator
reads. -/
structure RouteOp where
  tags : List String

/-- First tag over all operations of one path, as comparePaths collects
it: the tag lists of the methods in insertion order, flattened, first
element, empty string if none. -/
def firstTagOf (methods : List (String × RouteOp)) : String :=
  ((methods.flatMap (fun kv => kv.2.tags)).headD "")

/-- Lexicographic code-point comparison of character lists. -/
def lexCmp : List Char → List Char → Ordering
  | [], [] => .eq
  | [], _ :: _ => .lt
  | _ :: _, [] => .gt
  | a :: as, b :: bs =>
    if a.toNat < b.toNat then .lt
    else if b.toNat < a.toNat then .gt
    else lexCmp as bs

/-- Three-way natural comparison, carrying the sign of the length
difference the source returns. -/
def natCmp (m n : Nat) : Ordering :=
  if m < n then .lt else if n < m then .gt else .eq

/-- comparePaths of the RouteProcessor: primary comparison on the first
tag of each path, tie-break on the number of slash-separated segments. -/
def comparePaths (sw : List (String × List (String × RouteOp))) (a b : String) :
    Ordering :=
  let aPrimaryTag := firstTagOf ((alookup sw a).getD [])
  let bPrimaryTag := firstTagOf ((alookup sw b).getD [])
  match lexCmp aPrimaryTag.toList bPrimaryTag.toList with
  | .eq => natCmp (splitOnStr '/' a).length (splitOnStr '/' b).length
  | o => o

/-- Non-strict comparator order used by the stable sort. -/
def pathLe (sw : List (String × List (String × RouteOp))) (a b : String) : Prop :=
  comparePaths sw a b ≠ .gt

instance (sw : List (String × List (String × RouteOp))) (a b : String) :
    Decidable (pathLe sw a b) :=
  inferInstanceAs (Decidable (comparePaths sw a b ≠ .gt))

/-- getSortedPaths of the RouteProcessor: sort the keys with the
comparator bound to the route table sw, then rebuild the mapping in
sorted key order. -/
def getSortedPaths (sw : List (String × List (String × RouteOp)))
    (paths : List (String × List (String × RouteOp))) :
    List (String × List (String × RouteOp)) :=
  let sortedKeys := (paths.map (fun kv => kv.1)).insertionSort (pathLe sw)
  sortedKeys.map (fun k => (k, (alookup paths k).getD []))

/-- getSwaggerPaths of the RouteProcessor: getSortedPaths applied twice,
both times comparing against the stored route table. -/
def getSwaggerPaths (sw : List (String × List (String × RouteOp))) :
    List (String × List (String × RouteOp)) :=
  getSortedPaths sw (getSortedPaths sw sw)

/-!
Annotation extraction (src/lib/utils.ts): cleanComment,
extractTypeFromComment, and the response-type portion of
extractJSDocComments, over character lists.  The regular expressions of
the source are given their leftmost-match semantics explicitly: for the
patterns at hand, maximal munch of the whitespace and word runs is exact,
because a whitespace character can never satisfy the follow-up word-class
test.
-/

/-- Word characters of the regex class backslash-w. -/
def isWordChar (c : Char) : Bool :=
  c.isAlpha || c.isDigit || c = '_'

/-- cleanComment of the source, replacement phase: every asterisk
together with the whitespace run after it is removed, scanning left to
right and continuing after each removal.  The flag records that the scan
stands inside the whitespace run of a match. -/
def cleanCommentAux (skipping : Bool) : List Char → List Char
  | [] => []
  | c :: rest =>
    if skipping && isSpaceChar c then cleanCommentAux true rest
    else if c = '*' then cleanCommentAux true rest
    else c :: cleanCommentAux false rest

/-- cleanComment of the source: remove asterisk-plus-whitespace runs,
then trim. -/
def cleanComment (l : List Char) : List Char :=
  trimChars (cleanCommentAux false l)

/-- Substring containment, as String.prototype.includes. -/
def containsSeq (needle : List Char) : List Char → Bool
  | [] => needle.isEmpty
  | c :: rest => needle.isPrefixOf (c :: rest) || containsSeq needle rest

/-- Match attempt for the pattern tag-whitespace-word at one position:
the doubled whitespace star of the source collapses to one, and the word
capture is returned on success. -/
def matchTagAt (tag s : List Char) : Option (List Char) :=
  if tag.isPrefixOf s then
    let rest := (s.drop tag.length).dropWhile isSpaceChar
    let w := rest.takeWhile isWordChar
    if w.isEmpty then none else some w
  else none

/-- Leftmost match of the tag-whitespace-word pattern. -/
def findTagCapture (tag : List Char) : List Char → Option (List Char)
  | [] => matchTagAt tag []
  | c :: rest =>
    match matchTagAt tag (c :: rest) with
    | some w => some w
    | none => findTagCapture tag rest

/-- extractTypeFromComment of the source: the word capture of the
leftmost match, or the empty string. -/
def extractTypeFromComment (commentValue tag : List Char) : List Char :=
  (findTagCapture tag commentValue).getD []

/-- The response tag text. -/
def respTag : List Char := "@response".toList

/-- Optional description group of the response directive pattern: a
colon followed by the rest of the line. -/
def descPart (r : List Char) : List Char :=
  match r with
  | ':' :: t => t.takeWhile (fun c => c ≠ '\n')
  | _ => []

/-- Match attempt at one position for the response directive pattern of
the source, with its mandatory whitespace, optional digit-colon code
group (tried greedily first, then dropped, exactly as the regex engine
backtracks) and mandatory word-class type capture.  Returns code, type
and description captures. -/
def respMatchAt (s : List Char) : Option (List Char × List Char × List Char) :=
  if respTag.isPrefixOf s then
    let r0 := s.drop respTag.length
    let ws := r0.takeWhile isSpaceChar
    if ws.isEmpty then none
    else
      let r1 := r0.drop ws.length
      let d := r1.takeWhile Char.isDigit
      let afterD := r1.drop d.length
      let withGroup : Option (List Char × List Char × List Char) :=
        if d.isEmpty = false ∧ afterD.head? = some ':' then
          let r2 := afterD.drop 1
          let w := r2.takeWhile isWordChar
          if w.isEmpty then none
          else some (d, w, descPart (r2.drop w.length))
        else none
      match withGroup with
      | some r => some r
      | none =>
        let w := r1.takeWhile isWordChar
        if w.isEmpty then none
        else some ([], w, descPart (r1.drop w.length))
  else none

/-- Leftmost match of the response directive pattern. -/
def findRespMatch : List Char → Option (List Char × List Char × List Char)
  | [] => respMatchAt []
  | c :: rest =>
    match respMatchAt (c :: rest) with
    | some r => some r
    | none => findRespMatch rest

/-- The response-related fields of the directive record. -/
structure RespDirectives where
  responseType : List Char := []
  successCode : List Char := []

/-- The response-type portion of extractJSDocComments: for each comment
of the block, the first conditional assigns the simple tag capture when
the cleaned text contains the response tag, and the second conditional
re-assigns from the full response directive pattern when it matches,
falling back to the simple capture otherwise. -/
def extractResponseDirectives (comments : List (List Char)) : RespDirectives :=
  comments.foldl (fun acc raw =>
    let commentValue := cleanComment raw
    let acc1 :=
      if containsSeq respTag commentValue then
        { acc with responseType := extractTypeFromComment commentValue respTag }
      else acc
    if containsSeq respTag commentValue then
      match findRespMatch commentValue with
      | some r => { acc1 with successCode := r.1, responseType := r.2.1 }
      | none => { acc1 with responseType := extractTypeFromComment commentValue respTag }
    else acc1) {}

/-!
Claim C5: missing declarations degrade to the empty schema and
generation continues.
-/

/-- C5: resolution of a name with no declaration in the environment, no
collected definition, and no in-progress entry returns the empty schema
from resolveType; the surrounding machinery is total, so generation of
the rest of the specification completes by construction. -/
theorem C5_missing_type_degrades_to_empty_schema
    (env : List (String × TSDecl)) (fuel : Nat) (st : TSState) (name ct : String)
    (hEnv : alookup env name = none)
    (hDefs : alookup st.typeDefs name = none)
    (hD2 : alookup st.defs name = none)
    (hProc : name ∉ st.processing) :
    (resolveType env (fuel + 1) name st).1 = emptyS ∧
    (getSchemaContentSlot env (fuel + 3) name ct st).1 = emptyS := by
  constructor
  · simp only [resolveType, tstep, resolveTypeStep]
    rw [if_neg hProc]
    simp [hDefs]
  · simp only [getSchemaContentSlot, hD2, findSchemaDefinition]
    simp only [tstep, findSchemaDefinitionStep, processSchemaFileStep, resolveTypeStep]
    by_cases htr : name ∈ st.tracker
    · simp [htr, hD2]
    · simp only [htr, if_false, if_neg htr, hEnv]
      have hnotin : name ∉ ([] : List String) := by simp
      rw [if_neg hnotin]
      simp [hDefs]
      by_cases hflag : st.isResolvingPickOmitBase
      · simp [hflag, hD2]
      · simp [hflag, alookup_aupsert_same, emptyS]

/-- C5 witness: a concrete run on an empty environment. -/
theorem C5_witness :
    (resolveType [] 3 "NonExistentType" initialTSState).1 = emptyS ∧
    (getSchemaContentSlot [] 5 "NonExistentType" "body" initialTSState).1 = emptyS :=
  C5_missing_type_degrades_to_empty_schema [] 2 initialTSState "NonExistentType" "body"
    (by rfl) (by rfl) (by rfl) (by simp [initialTSState])

/-!
Claim C2: the required list of a resolved object-shaped structural type.
The declared object type of the claim, with members a of type string
without question mark and b of type number with one, resolved in body
context.
-/

/-- Declaration environment of the two-member example of the claim. -/
def c2Env : List (String × TSDecl) :=
  [("T", .interfaceD [] [("a", false, none, .strKw), ("b", true, none, .numKw)])]

/-- State after collecting that declaration, resolving in body
context. -/
def c2St : TSState := { typeDefs := c2Env, contentType := "body" }

/-- C2 counterexample: resolving the declared object type of the claim
yields an object schema with no required list at all, so its required
list is not the one-element list holding a. -/
theorem C2_counterexample_no_required_list :
    (resolveType c2Env 9 "T" c2St).1 =
      Schema.mk { type? := some "object",
                  properties? := some
                    [("a", Schema.mk { type? := some "string", nullable? := some false }),
                     ("b", Schema.mk { type? := some "number", nullable? := some true })] } ∧
    ((resolveType c2Env 9 "T" c2St).1).f.required? ≠ some ["a"] :=
  ⟨rfl, by decide⟩

/-- C2 amended: a member optionality marker never produces a required
list, because the structural resolver emits object schemas without one;
for every interface declaration the resolved schema is an object schema
whose required field is absent.  In body context the optionality of a
member is recorded instead as the nullable flag of its property schema,
as the concrete two-member example shows. -/
theorem C2_no_required_list_from_optionality
    (env : List (String × TSDecl)) (fuel : Nat) (st : TSState) (name : String)
    (ext : List TSType) (ms : List (String × Bool × Option String × TSType))
    (hDefs : alookup st.typeDefs name = some (.interfaceD ext ms))
    (hProc : name ∉ st.processing) :
    ((resolveType env (fuel + 1) name st).1.f.required? = none ∧
     (resolveType env (fuel + 1) name st).1.f.type? = some "object") ∧
    (resolveType c2Env 9 "T" c2St).1 =
      Schema.mk { type? := some "object",
                  properties? := some
                    [("a", Schema.mk { type? := some "string", nullable? := some false }),
                     ("b", Schema.mk { type? := some "number", nullable? := some true })] } := by
  refine ⟨?_, rfl⟩
  simp only [resolveType, tstep, resolveTypeStep]
  rw [if_neg hProc]
  simp [hDefs]

/-!
Claim C1: the three-way union resolution rule.  The claim-side
classifier below follows the words of the specification: a union whose
members are all literals of one primitive kind, with its kind and the
list of literal values.
-/

/-- Claim-side classifier: some kind and values exactly when every union
member is a literal of that one primitive kind. -/
def unionAllSameKindLits (ts : List TSType) : Option (String × List Lit) :=
  match ts with
  | [] => none
  | t :: _ =>
    match litValue? t with
    | none => none
    | some v =>
      if ts.all (fun x => (litValue? x).any (fun w => litTypeof w = litTypeof v)) then
        some (litTypeof v, ts.filterMap litValue?)
      else none

theorem litValue_isSome_iff (x : TSType) : (litValue? x).isSome = isLitT x := by
  cases x <;> rfl

theorem unionEnumCase_eq_classifier (ts : List TSType) :
    unionEnumCase ts =
      (unionAllSameKindLits ts).map
        (fun kv => Schema.mk { type? := some kv.1, enum? := some kv.2 }) := by
  cases ts with
  | nil => rfl
  | cons t ts' =>
    by_cases hall : ∀ x ∈ t :: ts', isLitT x
    · have hfilter : (t :: ts').filter isLitT = t :: ts' := List.filter_eq_self.mpr hall
      have hlit : isLitT t := hall t (by simp)
      obtain ⟨v0, hv0⟩ : ∃ v0, litValue? t = some v0 := by
        have := litValue_isSome_iff t
        rw [hlit] at this
        exact Option.isSome_iff_exists.mp this
      have hfm : (t :: ts').filterMap litValue? = v0 :: ts'.filterMap litValue? := by
        simp [List.filterMap_cons, hv0]
      by_cases hsame : ∀ w ∈ ts'.filterMap litValue?, litTypeof w = litTypeof v0
      · have hcode : (ts'.filterMap litValue?).all (fun w => litTypeof w = litTypeof v0) = true := by
          rw [List.all_eq_true]
          intro w hw
          simp [hsame w hw]
        have hclaim : (t :: ts').all
            (fun x => (litValue? x).any (fun w => litTypeof w = litTypeof v0)) = true := by
          rw [List.all_eq_true]
          intro x hx
          have hx' : isLitT x := hall x hx
          obtain ⟨w, hw⟩ : ∃ w, litValue? x = some w := by
            have := litValue_isSome_iff x
            rw [hx'] at this
            exact Option.isSome_iff_exists.mp this
          have hwmem : w ∈ (t :: ts').filterMap litValue? :=
            List.mem_filterMap.mpr ⟨x, hx, hw⟩
          rw [hfm] at hwmem
          have hwty : litTypeof w = litTypeof v0 := by
            rcases List.mem_cons.mp hwmem with h | h
            · rw [h]
            · exact hsame w h
          simp [hw, Option.any, hwty]
        simp [unionEnumCase, hfilter, hfm, hcode, unionAllSameKindLits, hv0, hclaim]
      · push_neg at hsame
        obtain ⟨w0, hw0mem, hw0⟩ := hsame
        have hcode : (ts'.filterMap litValue?).all (fun w => litTypeof w = litTypeof v0) = false := by
          rw [Bool.eq_false_iff]
          intro hcontra
          rw [List.all_eq_true] at hcontra
          exact hw0 (by simpa using hcontra w0 hw0mem)
        have hclaim : (t :: ts').all
            (fun x => (litValue? x).any (fun w => litTypeof w = litTypeof v0)) = false := by
          rw [Bool.eq_false_iff]
          intro hcontra
          rw [List.all_eq_true] at hcontra
          obtain ⟨x, hxmem, hxval⟩ := List.mem_filterMap.mp hw0mem
          have := hcontra x (List.mem_cons_of_mem t hxmem)
          rw [hxval] at this
          simp [Option.any] at this
          exact hw0 this
        simp [unionEnumCase, hfilter, hfm, hcode, unionAllSameKindLits, hv0, hclaim]
    · have hne : ((t :: ts').filter isLitT).length ≠ (t :: ts').length := by
        intro hcontra
        exact hall (fun x hx => List.filter_length_eq_length.mp hcontra x hx)
      have hclassifier : unionAllSameKindLits (t :: ts') = none := by
        push_neg at hall
        obtain ⟨x, hxmem, hxnotlit⟩ := hall
        have hxnone : litValue? x = none := by
          cases hlv : litValue? x with
          | none => rfl
          | some w =>
            exfalso
            apply hxnotlit
            have h2 := litValue_isSome_iff x
            rw [hlv] at h2
            simpa using h2.symm
        cases hv : litValue? t with
        | none => simp [unionAllSameKindLits, hv]
        | some v0 =>
          have hfalse : (t :: ts').all
              (fun y => (litValue? y).any (fun w => litTypeof w = litTypeof v0)) = false := by
            rw [Bool.eq_false_iff]
            intro hcontra
            rw [List.all_eq_true] at hcontra
            have hx := hcontra x hxmem
            rw [hxnone] at hx
            simp [Option.any] at hx
          simp [unionAllSameKindLits, hv, hfalse]
      simp [unionEnumCase, hclassifier]
      intro h
      exact absurd h (by simpa using hne)

/-- C1: the union rule of resolveTSNodeType.  When every member is a
literal of one primitive kind the union collapses to a single enum
schema of that kind listing the values in member order, with no state
effect; otherwise, when exactly one member is not null-like and at least
one is, the result is that single member resolved and marked nullable,
never a oneOf; otherwise the result is a oneOf over the resolved
non-null-like members, the null-like members dropped. -/
theorem C1_union_resolution (env : List (String × TSDecl)) (fuel : Nat)
    (st : TSState) (ts : List TSType) :
    (∀ k vs, unionAllSameKindLits ts = some (k, vs) →
      resolveTSNodeType env (fuel + 1) (some (.unionT ts)) st =
        (Schema.mk { type? := some k, enum? := some vs }, st)) ∧
    (∀ t0, unionAllSameKindLits ts = none →
      (ts.filter isNullishT).length > 0 →
      ts.filter (fun x => !isNullishT x) = [t0] →
      resolveTSNodeType env (fuel + 1) (some (.unionT ts)) st =
        (withNullable (resolveTSNodeType env fuel (some t0) st).1,
         (resolveTSNodeType env fuel (some t0) st).2)) ∧
    (unionAllSameKindLits ts = none →
      ¬ ((ts.filter isNullishT).length > 0 ∧
         (ts.filter (fun x => !isNullishT x)).length = 1) →
      resolveTSNodeType env (fuel + 1) (some (.unionT ts)) st =
        (Schema.mk { oneOf? :=
                       some (stMap (fun t stx => tstep env fuel (.resolveNode (some t)) stx)
                         (ts.filter (fun x => !isNullishT x)) st).1 },
         (stMap (fun t stx => tstep env fuel (.resolveNode (some t)) stx)
           (ts.filter (fun x => !isNullishT x)) st).2)) := by
  refine ⟨?_, ?_, ?_⟩
  · intro k vs h
    have hcase : unionEnumCase ts = some (Schema.mk { type? := some k, enum? := some vs }) := by
      rw [unionEnumCase_eq_classifier, h]
      rfl
    simp only [resolveTSNodeType, tstep, resolveNodeStep, hcase]
  · intro t0 hnone hnul hsingle
    have hcase : unionEnumCase ts = none := by
      rw [unionEnumCase_eq_classifier, hnone]
      rfl
    simp only [resolveTSNodeType, tstep, resolveNodeStep, hcase, hsingle]
    rw [if_pos ?hc]
    case hc => exact ⟨hnul, by simp⟩
  · intro hnone hcond
    have hcase : unionEnumCase ts = none := by
      rw [unionEnumCase_eq_classifier, hnone]
      rfl
    simp only [resolveTSNodeType, tstep, resolveNodeStep, hcase]
    rw [if_neg]
    exact hcond

/-- C1 witness: the single-literal-plus-null union of the claim resolves
to a nullable single enum schema, never a two-branch oneOf. -/
theorem C1_witness :
    resolveTSNodeType [] 2 (some (.unionT [.litStr "foo", .nullKw])) initialTSState =
      (Schema.mk { type? := some "string", enum? := some [.s "foo"],
                   nullable? := some true }, initialTSState) := by
  have h := (C1_union_resolution [] 1 initialTSState [.litStr "foo", .nullKw]).2.1
    (.litStr "foo") (by rfl) (by decide) (by rfl)
  rw [h]
  rfl

/-- C2 witness: the amended theorem applied to the concrete two-member
declaration. -/
theorem C2_witness :
    ((resolveType c2Env 9 "T" c2St).1.f.required? = none ∧
     (resolveType c2Env 9 "T" c2St).1.f.type? = some "object") ∧
    (resolveType c2Env 9 "T" c2St).1 =
      Schema.mk { type? := some "object",
                  properties? := some
                    [("a", Schema.mk { type? := some "string", nullable? := some false }),
                     ("b", Schema.mk { type? := some "number", nullable? := some true })] } :=
  C2_no_required_list_from_optionality c2Env 8 c2St "T" []
    [("a", false, none, .strKw), ("b", true, none, .numKw)] (by rfl) (by decide)

/-!
Claim C3: bare-identifier property values in processZodObject.  The
identifier branch of the source creates a reference and pushes the key
into required, but unlike its sibling branches it does not return, so
control falls through to the generic processing at the end of the loop
body, which overwrites the reference with the untyped-object fallback of
processZodNode and pushes the key into required a second time.
-/

/-- Environment declaring the referenced schema of the failing input. -/
def c3Env : List (String × ZExpr) :=
  [("ProfileSchema", .memberCall (.ident "z") "object"
     [.objExpr [("p", .memberCall (.ident "z") "string" [])]])]

/-- The failing input: a z.object whose property value is the bare
identifier ProfileSchema. -/
def c3Obj : ZExpr :=
  .memberCall (.ident "z") "object" [.objExpr [("profile", .ident "ProfileSchema")]]

/-- C3: evaluating the code at the failing input.  Resolution of the
referenced name is triggered (the cache gains the converted schema) and
the key lands in required (twice), but the emitted property schema is
the untyped object fallback, not the reference the identifier branch
just created, because the missing return lets the generic branch
overwrite it. -/
theorem C3_identifier_reference_overwritten :
    (processZodObject c3Env 10 c3Obj initialZState).1 =
      some (Schema.mk { type? := some "object",
                        properties? := some [("profile", objDefault)],
                        required? := some ["profile", "profile"] }) ∧
    alookup ((processZodObject c3Env 10 c3Obj initialZState).2).zodSchemas
        "ProfileSchema" =
      some (Schema.mk { type? := some "object",
                        properties? := some [("p", Schema.mk { type? := some "string" })],
                        required? := some ["p"] }) :=
  ⟨rfl, rfl⟩

/-!
Claim C6: optional-chain detection in the builder resolver.  The
claim-side notion of the call chain of an expression is the list of
method names along the callee spine, and a marker is one of optional,
nullable, nullish.
-/

/-- Method names along the callee spine of a chain, outermost first. -/
def chainMethods : ZExpr → List String
  | .memberCall obj m _ => m :: chainMethods obj
  | _ => []

/-- The three optionality markers. -/
def isMarkerName (m : String) : Bool :=
  m = "optional" || m = "nullable" || m = "nullish"

/-- Required list of an optional schema result. -/
def reqListOf (s? : Option Schema) : List String :=
  ((s?.getD emptyS).f.required?).getD []

/-- Base case helper: a one-link chain over a non-call, non-identifier
object has the marker test as its whole outcome. -/
theorem hasOptionalMethod_eq_anyMarker_base (m : String) (args : List ZExpr)
    (obj : ZExpr)
    (hobj : (match obj with
             | ZExpr.memberCall _ _ _ => true
             | ZExpr.ident _ => true
             | _ => false) = false) :
    hasOptionalMethod (.memberCall obj m args) =
      (chainMethods (.memberCall obj m args)).any isMarkerName := by
  by_cases hm : m = "optional" ∨ m = "nullable" ∨ m = "nullish"
  · have hmB : isMarkerName m = true := by
      rcases hm with h | h | h <;> simp [isMarkerName, h]
    cases obj <;> simp at hobj <;>
      (simp only [hasOptionalMethod, chainMethods]
       rw [if_pos hm]
       simp [hmB])
  · have hmB : isMarkerName m = false := by
      rw [Bool.eq_false_iff]
      intro hcB
      apply hm
      simp [isMarkerName] at hcB
      tauto
    cases obj <;> simp at hobj <;>
      (simp only [hasOptionalMethod, chainMethods]
       rw [if_neg hm]
       simp [hmB])

theorem hasOptionalMethod_eq_anyMarker : (e : ZExpr) →
    hasOptionalMethod e = (chainMethods e).any isMarkerName
  | .memberCall (.memberCall o2 m2 a2) m args => by
    have ih := hasOptionalMethod_eq_anyMarker (.memberCall o2 m2 a2)
    by_cases hm : m = "optional" ∨ m = "nullable" ∨ m = "nullish"
    · have hmB : isMarkerName m = true := by
        rcases hm with h | h | h <;> simp [isMarkerName, h]
      simp only [hasOptionalMethod, chainMethods]
      rw [if_pos hm]
      simp [hmB]
    · have hmB : isMarkerName m = false := by
        rw [Bool.eq_false_iff]
        intro hcB
        apply hm
        simp [isMarkerName] at hcB
        tauto
      simp only [hasOptionalMethod, chainMethods]
      rw [if_neg hm]
      simp only [List.any_cons, hmB, Bool.false_or]
      exact ih
  | .memberCall (.ident nm) m args => by
    by_cases hm : m = "optional" ∨ m = "nullable" ∨ m = "nullish"
    · have hmB : isMarkerName m = true := by
        rcases hm with h | h | h <;> simp [isMarkerName, h]
      simp only [hasOptionalMethod, chainMethods]
      rw [if_pos hm]
      simp [hmB]
    · have hmB : isMarkerName m = false := by
        rw [Bool.eq_false_iff]
        intro hcB
        apply hm
        simp [isMarkerName] at hcB
        tauto
      simp only [hasOptionalMethod, chainMethods]
      rw [if_neg hm]
      simp [hmB]
  | .memberCall (.strLit v) m args => hasOptionalMethod_eq_anyMarker_base m args _ rfl
  | .memberCall (.numLit v) m args => hasOptionalMethod_eq_anyMarker_base m args _ rfl
  | .memberCall (.boolLit v) m args => hasOptionalMethod_eq_anyMarker_base m args _ rfl
  | .memberCall .nullLit m args => hasOptionalMethod_eq_anyMarker_base m args _ rfl
  | .memberCall (.regexLit v) m args => hasOptionalMethod_eq_anyMarker_base m args _ rfl
  | .memberCall (.objExpr v) m args => hasOptionalMethod_eq_anyMarker_base m args _ rfl
  | .memberCall (.arrExpr v) m args => hasOptionalMethod_eq_anyMarker_base m args _ rfl
  | .memberCall (.arrow v) m args => hasOptionalMethod_eq_anyMarker_base m args _ rfl
  | .ident nm => rfl
  | .strLit v => rfl
  | .numLit v => rfl
  | .boolLit v => rfl
  | .nullLit => rfl
  | .regexLit p => rfl
  | .objExpr ps => rfl
  | .arrExpr es => rfl
  | .arrow b => rfl

/-- A marked value never extends the required accumulator: in every
branch of the property loop its pushes are guarded by the optionality
test, and the unconditional describe branch cannot fire because a
one-call describe chain carries no marker. -/
theorem zObjEntry_marker_no_push
    (recN : ZExpr → ZState → Option Schema × ZState)
    (recC : String → ZState → Option Schema × ZState)
    (acc : (List (String × Schema) × List String) × ZState)
    (key : String) (v : ZExpr)
    (hmark : (chainMethods v).any isMarkerName = true) :
    (zObjEntry recN recC acc (key, v)).1.2 = acc.1.2 := by
  have hopt : hasOptionalMethod v = true := by
    rw [hasOptionalMethod_eq_anyMarker]
    exact hmark
  cases v with
  | memberCall obj m args =>
    cases obj with
    | ident schemaName =>
      have hchain : chainMethods (.memberCall (.ident schemaName) m args) = [m] := rfl
      rw [hchain] at hmark
      have hmB : isMarkerName m = true := by simpa using hmark
      have hmd : ¬ (m = "describe") := by
        intro hc
        rw [hc] at hmB
        simp [isMarkerName] at hmB
      simp only [zObjEntry]
      rw [if_neg]
      · simp only [hopt]
        split <;> simp
      · intro hc
        exact hmd hc.1
    | memberCall o2 m2 a2 =>
      simp only [zObjEntry, hopt]
      split <;> simp
    | strLit x =>
      simp only [zObjEntry, hopt]
      split <;> simp
    | numLit x =>
      simp only [zObjEntry, hopt]
      split <;> simp
    | boolLit x =>
      simp only [zObjEntry, hopt]
      split <;> simp
    | nullLit =>
      simp only [zObjEntry, hopt]
      split <;> simp
    | regexLit x =>
      simp only [zObjEntry, hopt]
      split <;> simp
    | objExpr x =>
      simp only [zObjEntry, hopt]
      split <;> simp
    | arrExpr x =>
      simp only [zObjEntry, hopt]
      split <;> simp
    | arrow x =>
      simp only [zObjEntry, hopt]
      split <;> simp
  | ident nm => simp [chainMethods] at hmark
  | strLit x => simp [chainMethods] at hmark
  | numLit x => simp [chainMethods] at hmark
  | boolLit x => simp [chainMethods] at hmark
  | nullLit => simp [chainMethods] at hmark
  | regexLit x => simp [chainMethods] at hmark
  | objExpr x => simp [chainMethods] at hmark
  | arrExpr x => simp [chainMethods] at hmark
  | arrow x => simp [chainMethods] at hmark

set_option linter.unusedTactic false in
/-- The required accumulator after one property is the old accumulator
followed by zero, one or two copies of the property name. -/
theorem zObjEntry_req_shape
    (recN : ZExpr → ZState → Option Schema × ZState)
    (recC : String → ZState → Option Schema × ZState)
    (acc : (List (String × Schema) × List String) × ZState)
    (p : String × ZExpr) :
    ∃ n, (zObjEntry recN recC acc p).1.2 = acc.1.2 ++ List.replicate n p.1 := by
  obtain ⟨key, v⟩ := p
  cases v <;>
    simp only [zObjEntry] <;>
    (repeat' split) <;>
    (try (exfalso; simp_all [isOptional, hasOptionalMethod]; done)) <;>
    first
      | (refine ⟨0, ?_⟩; simp; done)
      | (refine ⟨1, ?_⟩; simp; done)
      | (refine ⟨2, ?_⟩; simp [List.replicate]; done)

/-- Every name in the required accumulator after one property either was
there before or is the name of that property. -/
theorem zObjEntry_req_superset
    (recN : ZExpr → ZState → Option Schema × ZState)
    (recC : String → ZState → Option Schema × ZState)
    (acc : (List (String × Schema) × List String) × ZState)
    (p : String × ZExpr) (x : String)
    (hx : x ∈ (zObjEntry recN recC acc p).1.2) :
    x ∈ acc.1.2 ∨ x = p.1 := by
  obtain ⟨n, hn⟩ := zObjEntry_req_shape recN recC acc p
  rw [hn] at hx
  rcases List.mem_append.mp hx with h | h
  · exact Or.inl h
  · exact Or.inr (List.eq_of_mem_replicate h)

/-- A key that no property of the list carries never enters the required
accumulator. -/
theorem zObjFold_no_new_key
    (recN : ZExpr → ZState → Option Schema × ZState)
    (recC : String → ZState → Option Schema × ZState)
    (props : List (String × ZExpr)) (key : String)
    (hnok : ∀ p ∈ props, p.1 ≠ key)
    (acc : (List (String × Schema) × List String) × ZState)
    (hkey : key ∉ acc.1.2) :
    key ∉ (props.foldl (zObjEntry recN recC) acc).1.2 := by
  induction props generalizing acc with
  | nil => exact hkey
  | cons p ps ih =>
    simp only [List.foldl_cons]
    apply ih (fun q hq => hnok q (List.mem_cons_of_mem p hq))
    intro hc
    rcases zObjEntry_req_superset recN recC acc p key hc with h | h
    · exact hkey h
    · exact hnok p (List.mem_cons_self p ps) h.symm

/-- A key whose value chain carries an optionality marker never enters
the required accumulator, provided no other property shares the key. -/
theorem zObjFold_marker_excluded
    (recN : ZExpr → ZState → Option Schema × ZState)
    (recC : String → ZState → Option Schema × ZState)
    (props : List (String × ZExpr)) (key : String) (v : ZExpr)
    (hmem : (key, v) ∈ props)
    (hnd : (props.map Prod.fst).Nodup)
    (hmark : (chainMethods v).any isMarkerName = true)
    (acc : (List (String × Schema) × List String) × ZState)
    (hkey : key ∉ acc.1.2) :
    key ∉ (props.foldl (zObjEntry recN recC) acc).1.2 := by
  induction props generalizing acc with
  | nil => simp at hmem
  | cons p ps ih =>
    have hnd' := hnd
    rw [List.map_cons, List.nodup_cons] at hnd'
    rcases List.mem_cons.mp hmem with heq | hmem'
    · subst heq
      simp only [List.foldl_cons]
      apply zObjFold_no_new_key
      · intro q hq hc
        have hq1 : q.1 ∈ ps.map Prod.fst := List.mem_map_of_mem Prod.fst hq
        rw [hc] at hq1
        exact hnd'.1 hq1
      · rw [zObjEntry_marker_no_push recN recC acc key v hmark]
        exact hkey
    · have hpk : p.1 ≠ key := by
        intro hc
        have hk1 : (key, v).1 ∈ ps.map Prod.fst := List.mem_map_of_mem Prod.fst hmem'
        rw [← hc] at hk1
        exact hnd'.1 hk1
      simp only [List.foldl_cons]
      apply ih hmem' hnd'.2
      intro hc
      rcases zObjEntry_req_superset recN recC acc p key hc with h | h
      · exact hkey h
      · exact hpk h.symm

/-- C6: detection of optionality markers in builder chains.  The first
part states the mechanism: hasOptionalMethod walks the chain from the
outermost call inward and answers exactly whether some link is named
optional, nullable or nullish.  The second part states the effect: a
property whose value chain carries a marker anywhere, however many other
refinement links surround it, is excluded from the required list of the
object schema produced by processZodObject, provided the property names
are distinct. -/
theorem C6_optional_chain_excluded_from_required :
    (∀ e : ZExpr, hasOptionalMethod e = (chainMethods e).any isMarkerName) ∧
    (∀ (zenv : List (String × ZExpr)) (fuel : Nat) (st : ZState)
       (zobj : ZExpr) (mname : String) (cargs : List ZExpr)
       (props : List (String × ZExpr)) (key : String) (v : ZExpr),
      (key, v) ∈ props →
      (props.map Prod.fst).Nodup →
      (chainMethods v).any isMarkerName = true →
      key ∉ reqListOf (processZodObject zenv (fuel + 1)
          (.memberCall zobj mname (.objExpr props :: cargs)) st).1) := by
  constructor
  · exact hasOptionalMethod_eq_anyMarker
  · intro zenv fuel st zobj mname cargs props key v hmem hnd hmark
    have hexcl := zObjFold_marker_excluded
      (fun ex stx => zstep zenv fuel (.node ex) stx)
      (fun nm stx => zstep zenv fuel (.convert nm) stx)
      props key v hmem hnd hmark (([], []), st) (by simp)
    simp only [processZodObject, zstep]
    by_cases hlen : (props.foldl
        (zObjEntry (fun ex stx => zstep zenv fuel (.node ex) stx)
                   (fun nm stx => zstep zenv fuel (.convert nm) stx))
        (([], []), st)).1.2.length > 0
    · simp only [reqListOf, hlen, if_pos hlen, Option.getD_some]
      exact hexcl
    · simp only [reqListOf, if_neg hlen, Option.getD_some]
      simp [emptyS]

/-- The marked chain of the witness: z.number().min(0).optional()
followed by describe. -/
def c6Chain : ZExpr :=
  .memberCall (.memberCall (.memberCall (.memberCall (.ident "z") "number" [])
    "min" [.numLit 0]) "optional" []) "describe" [.strLit "d"]

/-- Property list of the witness. -/
def c6Props : List (String × ZExpr) :=
  [("age", c6Chain), ("id", .memberCall (.ident "z") "string" [])]

/-- C6 witness: the marked property of the concrete object is excluded
from required. -/
theorem C6_witness :
    (("age", c6Chain) ∈ c6Props ∧ (c6Props.map Prod.fst).Nodup ∧
      (chainMethods c6Chain).any isMarkerName = true) ∧
    "age" ∉ reqListOf (processZodObject [] 10
        (.memberCall (.ident "z") "object" [.objExpr c6Props]) initialZState).1 :=
  ⟨⟨by simp [c6Props], by decide, by decide⟩,
    C6_optional_chain_excluded_from_required.2 [] 9 initialZState (.ident "z")
      "object" [] c6Props "age" c6Chain (by simp [c6Props]) (by decide) (by decide)⟩

/-!
Claim C4: default success status codes by method.
-/

/-- C4 counterexample: a DELETE handler with no response type produces
no 204 entry; the assembled response map is the single fallback 200
entry with the empty schema, because buildResponsesFromConfig only emits
its success entry when a response type is declared and the fallback of
addRouteToPaths always produces a 200. -/
theorem C4_counterexample_delete_without_response_type :
    routeResponses {} [] {} "delete" =
      [("200", .inlineR "Successful response" emptyS)] ∧
    alookup (routeResponses {} [] {} "delete") "204" = none :=
  ⟨rfl, rfl⟩

/-- C4 amended: the explicit success entry defaults its status code by
method, 201 for POST, 204 for DELETE, 200 otherwise, whenever a response
type is declared and no status override is given; absent response-set
and add directives the configured response map is exactly that one
entry.  A DELETE handler with no response type gets no explicit success
entry at all: the fallback emits a 200 entry with the empty schema. -/
theorem C4_default_success_code_by_method
    (config : OpenApiConfigR) (dataTypes : DataTypes) (method : String)
    (resolved : Schema)
    (hrt : dataTypes.responseType ≠ "")
    (hsc : dataTypes.successCode = "")
    (hrs : dataTypes.responseSet = "")
    (hdrs : config.defaultResponseSet = "")
    (har : dataTypes.addResponses = "") :
    buildResponsesFromConfig config dataTypes method resolved =
      [(getDefaultSuccessCode method,
        .inlineR (if dataTypes.responseDescription ≠ "" then dataTypes.responseDescription
                  else "Successful response") resolved)] ∧
    (getDefaultSuccessCode "post" = "201" ∧ getDefaultSuccessCode "delete" = "204" ∧
      getDefaultSuccessCode "get" = "200" ∧ getDefaultSuccessCode "put" = "200") ∧
    routeResponses {} [] {} "delete" =
      [("200", .inlineR "Successful response" emptyS)] := by
  refine ⟨?_, ⟨by rfl, by rfl, by rfl, by rfl⟩, rfl⟩
  simp only [buildResponsesFromConfig, hsc, hrs, hdrs, har]
  simp [hrt, aupsert]

/-- C4 witness: a POST handler with a declared response type and no
override yields exactly the 201 entry. -/
theorem C4_witness :
    buildResponsesFromConfig {} { responseType := "OrderSchema" } "post" emptyS =
      [("201",
        .inlineR (if ({ responseType := "OrderSchema" } : DataTypes).responseDescription ≠ ""
                  then ({ responseType := "OrderSchema" } : DataTypes).responseDescription
                  else "Successful response") emptyS)] ∧
    (getDefaultSuccessCode "post" = "201" ∧ getDefaultSuccessCode "delete" = "204" ∧
      getDefaultSuccessCode "get" = "200" ∧ getDefaultSuccessCode "put" = "200") ∧
    routeResponses {} [] {} "delete" =
      [("200", .inlineR "Successful response" emptyS)] := by
  have h := C4_default_success_code_by_method {} { responseType := "OrderSchema" }
    "post" emptyS (by decide) rfl rfl rfl rfl
  simpa using h

/-!
Claim C8: response-set expansion.
-/

/-- Status codes named by the add directive, in the shape the third step
of buildResponsesFromConfig derives them: entries split at commas,
trimmed, and keyed by the part before the first colon. -/
def addResponseCodes (dataTypes : DataTypes) : List String :=
  if dataTypes.addResponses ≠ "" then
    ((splitOnStr ',' dataTypes.addResponses).map trimStr).map
      (fun r => (splitOnStr ':' r).headD "")
  else []

/-- Lookup after expanding the codes of one response set: every listed
code maps to its reference entry, other keys are untouched. -/
theorem respSetFoldLookup (codes : List String) (acc : List (String × Resp))
    (x : String) :
    alookup (codes.foldl (fun acc2 errorCode =>
        aupsert acc2 errorCode (.refR ("#/components/responses/" ++ errorCode))) acc) x =
      if x ∈ codes then some (.refR ("#/components/responses/" ++ x))
      else alookup acc x := by
  induction codes generalizing acc with
  | nil => simp
  | cons e codes ih =>
    simp only [List.foldl_cons]
    rw [ih]
    by_cases hx : x ∈ codes
    · simp [hx]
    · by_cases he : x = e
      · subst he
        simp [hx, alookup_aupsert_same]
      · have : ¬ x ∈ e :: codes := by
          simp [hx, he]
        simp [hx, this]
        rw [alookup_aupsert_other]
        intro hc
        exact he hc.symm

/-- A reference entry established for a code survives further set
expansion: any later write to the same key writes the same value. -/
theorem setFold_preserve_ref (config : OpenApiConfigR) (setNames : List String)
    (acc : List (String × Resp)) (c : String)
    (h : alookup acc c = some (.refR ("#/components/responses/" ++ c))) :
    alookup (setNames.foldl (expandRespSet config) acc) c =
      some (.refR ("#/components/responses/" ++ c)) := by
  induction setNames generalizing acc with
  | nil => exact h
  | cons s rest ih =>
    simp only [List.foldl_cons]
    apply ih
    cases hs : alookup config.responseSets s with
    | none => simp only [expandRespSet, hs]; exact h
    | some codes =>
      simp only [expandRespSet, hs]
      rw [respSetFoldLookup]
      by_cases hc : c ∈ codes <;> simp [hc, h]

/-- Expanding the named sets establishes a reference entry for every
code of every named set that the configuration defines. -/
theorem setFold_establish_ref (config : OpenApiConfigR) (setNames : List String)
    (acc : List (String × Resp)) (s : String) (codes : List String) (c : String)
    (hs : s ∈ setNames)
    (hcodes : alookup config.responseSets s = some codes)
    (hc : c ∈ codes) :
    alookup (setNames.foldl (expandRespSet config) acc) c =
      some (.refR ("#/components/responses/" ++ c)) := by
  induction setNames generalizing acc with
  | nil => simp at hs
  | cons s0 rest ih =>
    simp only [List.foldl_cons]
    rcases List.mem_cons.mp hs with heq | hmem
    · subst heq
      apply setFold_preserve_ref
      simp only [expandRespSet, hcodes]
      rw [respSetFoldLookup]
      simp [hc]
    · exact ih _ hmem

/-- The add step preserves the entry of every code it does not name. -/
theorem addRespStep_preserve (acc : List (String × Resp)) (r c : String)
    (hr : (splitOnStr ':' r).headD "" ≠ c) :
    alookup (addRespStep acc r) c = alookup acc c := by
  cases hp : (splitOnStr ':' r)[1]? with
  | none =>
    simp only [addRespStep, hp]
    exact alookup_aupsert_other _ _ _ _ hr
  | some ref =>
    simp only [addRespStep, hp]
    by_cases href : ref ≠ ""
    · rw [if_pos href, alookup_aupsert_other _ _ _ _ hr]
    · rw [if_neg href, alookup_aupsert_other _ _ _ _ hr]

/-- The add loop preserves the entry of every code it never names. -/
theorem addFold_preserve (entries : List String) (acc : List (String × Resp))
    (c : String)
    (h : ∀ r ∈ entries, (splitOnStr ':' r).headD "" ≠ c) :
    alookup (entries.foldl addRespStep acc) c = alookup acc c := by
  induction entries generalizing acc with
  | nil => rfl
  | cons r rest ih =>
    simp only [List.foldl_cons]
    rw [ih _ (fun q hq => h q (List.mem_cons_of_mem r hq))]
    exact addRespStep_preserve acc r c (h r (List.mem_cons_self r rest))

/-- Configuration and directives of the C8 counterexample. -/
def c8Cfg : OpenApiConfigR := { responseSets := [("auth", ["401", "403"])] }

/-- Directive record carrying both the response-set directive and a
colliding add directive. -/
def c8Dt : DataTypes := { responseSet := "auth", addResponses := "401:ConflictResponse" }

/-- C8 counterexample: with responseSets auth = [401, 403], a handler
carrying responseSet auth together with add 401:ConflictResponse has a
401 entry that is an inline schema entry, not a reference into
components.responses, so the claim fails as stated for this route. -/
theorem C8_counterexample_add_overrides_set_ref :
    alookup (buildResponsesFromConfig c8Cfg c8Dt "get" emptyS) "401" =
      some (.inlineR "Unauthorized" (refSchema "ConflictResponse")) ∧
    some (Resp.inlineR "Unauthorized" (refSchema "ConflictResponse")) ≠
      some (Resp.refR "#/components/responses/401") :=
  ⟨rfl, by simp⟩

/-- C8 amended: for every route whose effective response-set directive
names configured sets, the response map holds, for each status code of
each named configured set, a reference entry into components.responses,
unless a later add directive names the same code and overrides the
entry. -/
theorem C8_response_set_expansion
    (config : OpenApiConfigR) (dataTypes : DataTypes) (method : String)
    (resolved : Schema) (s : String) (codes : List String) (c : String)
    (hname : (if dataTypes.responseSet ≠ "" then dataTypes.responseSet
              else config.defaultResponseSet) ≠ "")
    (hnone : (if dataTypes.responseSet ≠ "" then dataTypes.responseSet
              else config.defaultResponseSet) ≠ "none")
    (hs : s ∈ (splitOnStr ',' (if dataTypes.responseSet ≠ "" then dataTypes.responseSet
                               else config.defaultResponseSet)).map trimStr)
    (hcodes : alookup config.responseSets s = some codes)
    (hc : c ∈ codes)
    (hadd : c ∉ addResponseCodes dataTypes) :
    alookup (buildResponsesFromConfig config dataTypes method resolved) c =
      some (.refR ("#/components/responses/" ++ c)) := by
  have hcond : ((if dataTypes.responseSet ≠ "" then dataTypes.responseSet
      else config.defaultResponseSet) ≠ "" ∧
      (if dataTypes.responseSet ≠ "" then dataTypes.responseSet
       else config.defaultResponseSet) ≠ "none") := ⟨hname, hnone⟩
  simp only [buildResponsesFromConfig]
  rw [if_pos hcond]
  by_cases har : dataTypes.addResponses ≠ ""
  · rw [if_pos har]
    rw [addFold_preserve]
    · exact setFold_establish_ref config _ _ s codes c hs hcodes hc
    · intro r hr hceq
      apply hadd
      simp only [addResponseCodes, if_pos har]
      rw [← hceq]
      exact List.mem_map_of_mem _ hr
  · rw [if_neg har]
    exact setFold_establish_ref config _ _ s codes c hs hcodes hc

/-- C8 witness: the concrete auth set of the claim produces reference
entries for 401 and 403. -/
theorem C8_witness :
    alookup (buildResponsesFromConfig c8Cfg { responseSet := "auth" } "get" emptyS) "401" =
      some (.refR "#/components/responses/401") ∧
    alookup (buildResponsesFromConfig c8Cfg { responseSet := "auth" } "get" emptyS) "403" =
      some (.refR "#/components/responses/403") :=
  ⟨C8_response_set_expansion c8Cfg { responseSet := "auth" } "get" emptyS "auth"
      ["401", "403"] "401" (by decide) (by decide) (by decide) (by rfl)
      (by decide) (by decide),
    C8_response_set_expansion c8Cfg { responseSet := "auth" } "get" emptyS "auth"
      ["401", "403"] "403" (by decide) (by decide) (by decide) (by rfl)
      (by decide) (by decide)⟩

/-!
Claim C7: Pick and Omit projection and the registration side effect.
-/

/-- Type nodes whose resolution is immediate: keywords and literal
types.  They resolve in one step and leave the resolver state
untouched. -/
def leafT : TSType → Bool
  | .strKw => true
  | .numKw => true
  | .boolKw => true
  | .anyKw => true
  | .unknownKw => true
  | .voidKw => true
  | .nullKw => true
  | .undefinedKw => true
  | .litStr _ => true
  | .litNum _ => true
  | .litBool _ => true
  | _ => false

/-- The schema a leaf node resolves to. -/
def leafSchema : TSType → Schema
  | .strKw => .mk { type? := some "string" }
  | .numKw => .mk { type? := some "number" }
  | .boolKw => .mk { type? := some "boolean" }
  | .anyKw => objDefault
  | .unknownKw => objDefault
  | .voidKw => .mk { type? := some "null" }
  | .nullKw => .mk { type? := some "null" }
  | .undefinedKw => .mk { type? := some "null" }
  | .litStr v => .mk { type? := some "string", enum? := some [.s v] }
  | .litNum v => .mk { type? := some "number", enum? := some [.n v] }
  | .litBool v => .mk { type? := some "boolean", enum? := some [.b v] }
  | _ => emptyS

/-- Pure image of one member-loop step over leaf-typed members. -/
def leafPropStep (ct : String) (acc : List (String × Schema))
    (m : String × Bool × Option String × TSType) : List (String × Schema) :=
  aupsert acc m.1 (spreadOptions (leafSchema m.2.2.2)
    (getPropertyOptions m.2.1 m.2.2.1 ct))

/-- The property list an interface with leaf-typed members resolves
to. -/
def leafProps (ct : String)
    (members : List (String × Bool × Option String × TSType)) :
    List (String × Schema) :=
  members.foldl (leafPropStep ct) []

theorem tstep_leaf (env : List (String × TSDecl)) (f : Nat) (t : TSType)
    (st : TSState) (h : leafT t = true) :
    tstep env (f + 1) (.resolveNode (some t)) st = (leafSchema t, st) := by
  cases t <;> simp_all [leafT, leafSchema, tstep, resolveNodeStep]

theorem tsMemberFold (recNode : Option TSType → TSState → Schema × TSState)
    (members : List (String × Bool × Option String × TSType)) (st : TSState)
    (acc0 : List (String × Schema))
    (h : ∀ m ∈ members, recNode (some m.2.2.2) st = (leafSchema m.2.2.2, st)) :
    members.foldl (tsMemberEntry recNode) (acc0, st) =
      (members.foldl (leafPropStep st.contentType) acc0, st) := by
  induction members generalizing acc0 with
  | nil => rfl
  | cons m rest ih =>
    obtain ⟨p, o, c, t⟩ := m
    have hm : recNode (some t) st = (leafSchema t, st) :=
      h (p, o, c, t) (List.mem_cons_self _ _)
    simp only [List.foldl_cons, tsMemberEntry, leafPropStep, hm]
    exact ih _ (fun q hq => h q (List.mem_cons_of_mem _ hq))

theorem tstep_find_eq (env : List (String × TSDecl)) (fuel : Nat)
    (name ct : String) (st : TSState) :
    tstep env (fuel + 1) (.findSchemaDefinition name ct) st =
      findSchemaDefinitionStep
        (fun n s => tstep env fuel (.processSchemaFile n) s) name ct st := rfl

theorem tstep_process_eq (env : List (String × TSDecl)) (fuel : Nat)
    (name : String) (st : TSState) :
    tstep env (fuel + 1) (.processSchemaFile name) st =
      processSchemaFileStep env
        (fun n s => tstep env fuel (.resolveType n) s) name st := rfl

theorem tstep_rt_eq (env : List (String × TSDecl)) (fuel : Nat)
    (name : String) (st : TSState) :
    tstep env (fuel + 1) (.resolveType name) st =
      resolveTypeStep (fun n s => tstep env fuel (.resolveNode n) s) name st := rfl

theorem tstep_rn_eq (env : List (String × TSDecl)) (fuel : Nat)
    (node? : Option TSType) (st : TSState) :
    tstep env (fuel + 1) (.resolveNode node?) st =
      resolveNodeStep (fun n s => tstep env fuel (.resolveNode n) s)
        (fun n c s => tstep env fuel (.findSchemaDefinition n c) s)
        (fun n s => tstep env fuel (.resolveType n) s) node? st := rfl

theorem resolveNodeStep_pick (recNode : Option TSType → TSState → Schema × TSState)
    (recFind : String → String → TSState → Schema × TSState)
    (recResolve : String → TSState → Schema × TSState)
    (p0 p1 : TSType) (ps : List TSType) (st : TSState) (sch : Schema)
    (st2 : TSState) (bprops : List (String × Schema))
    (h : recNode (some p0) { st with isResolvingPickOmitBase := true } = (sch, st2))
    (hp : sch.f.properties? = some bprops) :
    resolveNodeStep recNode recFind recResolve
        (some (.typeRef "Pick" (p0 :: p1 :: ps))) st =
      (Schema.mk { type? := some "object",
                   properties? := some (pickProps bprops (extractKeysFromLiteralType p1)) },
       { st2 with isResolvingPickOmitBase := false }) := by
  have e : resolveNodeStep recNode recFind recResolve
      (some (.typeRef "Pick" (p0 :: p1 :: ps))) st =
      (match (recNode (some p0)
          { st with isResolvingPickOmitBase := true }).1.f.properties? with
       | some bp =>
         (Schema.mk { type? := some "object",
                      properties? := some (pickProps bp (extractKeysFromLiteralType p1)) },
          { (recNode (some p0) { st with isResolvingPickOmitBase := true }).2 with
            isResolvingPickOmitBase := false })
       | none =>
         recNode (some p0)
           { (recNode (some p0) { st with isResolvingPickOmitBase := true }).2 with
             isResolvingPickOmitBase := false }) := rfl
  rw [e, h]
  simp only [hp]

theorem resolveNodeStep_omit (recNode : Option TSType → TSState → Schema × TSState)
    (recFind : String → String → TSState → Schema × TSState)
    (recResolve : String → TSState → Schema × TSState)
    (p0 p1 : TSType) (ps : List TSType) (st : TSState) (sch : Schema)
    (st2 : TSState) (bprops : List (String × Schema))
    (h : recNode (some p0) { st with isResolvingPickOmitBase := true } = (sch, st2))
    (hp : sch.f.properties? = some bprops) :
    resolveNodeStep recNode recFind recResolve
        (some (.typeRef "Omit" (p0 :: p1 :: ps))) st =
      (Schema.mk { type? := some "object",
                   properties? := some (omitProps bprops (extractKeysFromLiteralType p1)) },
       { st2 with isResolvingPickOmitBase := false }) := by
  have e : resolveNodeStep recNode recFind recResolve
      (some (.typeRef "Omit" (p0 :: p1 :: ps))) st =
      (match (recNode (some p0)
          { st with isResolvingPickOmitBase := true }).1.f.properties? with
       | some bp =>
         (Schema.mk { type? := some "object",
                      properties? := some (omitProps bp (extractKeysFromLiteralType p1)) },
          { (recNode (some p0) { st with isResolvingPickOmitBase := true }).2 with
            isResolvingPickOmitBase := false })
       | none =>
         recNode (some p0)
           { (recNode (some p0) { st with isResolvingPickOmitBase := true }).2 with
             isResolvingPickOmitBase := false }) := rfl
  rw [e, h]
  simp only [hp]

theorem resolveType_interface (env : List (String × TSDecl)) (g : Nat)
    (base : String) (members : List (String × Bool × Option String × TSType))
    (st : TSState)
    (hty : alookup st.typeDefs base = some (.interfaceD [] members))
    (hpr : base ∉ st.processing)
    (hleaf : ∀ m ∈ members, leafT m.2.2.2 = true) :
    tstep env (g + 2) (.resolveType base) st =
      (Schema.mk { type? := some "object",
                   properties? := some (leafProps st.contentType members) }, st) := by
  have hstep : ∀ m ∈ members,
      (fun n s => tstep env (g + 1) (.resolveNode n) s) (some m.2.2.2)
        ({ st with processing := base :: st.processing } : TSState) =
      (leafSchema m.2.2.2, { st with processing := base :: st.processing }) :=
    fun m hm => tstep_leaf env g m.2.2.2 _ (hleaf m hm)
  show tstep env ((g + 1) + 1) (.resolveType base) st = _
  rw [tstep_rt_eq]
  simp only [resolveTypeStep]
  rw [if_neg hpr]
  simp only [hty, List.foldl_nil]
  rw [tsMemberFold (fun n s => tstep env (g + 1) (.resolveNode n) s) members _ [] hstep]
  simp [leafProps, List.erase_cons_head]

theorem processSchemaFile_interface (env : List (String × TSDecl)) (g : Nat)
    (base : String) (members : List (String × Bool × Option String × TSType))
    (st : TSState)
    (htr : base ∉ st.tracker)
    (henv : alookup env base = some (.interfaceD [] members))
    (hleaf : ∀ m ∈ members, leafT m.2.2.2 = true)
    (hflag : st.isResolvingPickOmitBase = true) :
    tstep env (g + 3) (.processSchemaFile base) st =
      (Schema.mk { type? := some "object",
                   properties? := some (leafProps st.contentType members) },
       { st with typeDefs := aupsert st.typeDefs base (.interfaceD [] members),
                 processing := [], tracker := base :: st.tracker }) := by
  show tstep env ((g + 2) + 1) (.processSchemaFile base) st = _
  rw [tstep_process_eq]
  simp only [processSchemaFileStep]
  rw [if_neg htr]
  simp only [henv]
  rw [resolveType_interface env g base members _ (alookup_aupsert_same _ _ _)
    (by simp) hleaf]
  simp [hflag]

theorem resolveNode_plainRef (env : List (String × TSDecl)) (g : Nat)
    (base : String) (members : List (String × Bool × Option String × TSType))
    (st : TSState)
    (hb : base ∉ ["Date", "Array", "ReadonlyArray", "Record", "Partial",
                  "Required", "Readonly", "Pick", "Omit"])
    (hpr : base ∉ st.processing)
    (htr : base ∉ st.tracker)
    (henv : alookup env base = some (.interfaceD [] members))
    (hleaf : ∀ m ∈ members, leafT m.2.2.2 = true)
    (hflag : st.isResolvingPickOmitBase = true) :
    tstep env (g + 5) (.resolveNode (some (.typeRef base []))) st =
      (Schema.mk { type? := some "object",
                   properties? := some (leafProps st.contentType members) },
       { st with typeDefs := aupsert st.typeDefs base (.interfaceD [] members),
                 processing := [], tracker := base :: st.tracker }) := by
  simp only [List.mem_cons, List.not_mem_nil, or_false, not_or] at hb
  obtain ⟨hb1, hb2, hb3, hb4, hb5, hb6, hb7, hb8, hb9⟩ := hb
  have hfind : tstep env (g + 4) (.findSchemaDefinition base st.contentType) st =
      (emptyS,
       { st with typeDefs := aupsert st.typeDefs base (.interfaceD [] members),
                 processing := [], tracker := base :: st.tracker }) := by
    show tstep env ((g + 3) + 1) (.findSchemaDefinition base st.contentType) st = _
    rw [tstep_find_eq]
    simp only [findSchemaDefinitionStep]
    rw [processSchemaFile_interface env g base members _ htr henv hleaf hflag]
  have hres := resolveType_interface env (g + 2) base members
      ({ st with typeDefs := aupsert st.typeDefs base (.interfaceD [] members),
                 processing := [], tracker := base :: st.tracker } : TSState)
      (alookup_aupsert_same _ _ _) (by simp) hleaf
  rw [show (g + 2) + 2 = g + 4 from rfl] at hres
  show tstep env ((g + 4) + 1) (.resolveNode (some (.typeRef base []))) st = _
  rw [tstep_rn_eq]
  simp only [resolveNodeStep]
  rw [if_neg hb1, if_neg (by simp [hb2, hb3]), if_neg hb4,
      if_neg (by simp [hb5, hb6, hb7]), if_neg (by simp [hb8, hb9]),
      if_neg hpr, hfind, hres]

theorem mem_keys_aupsert (m : List (String × α)) (k : String) (v : α)
    (x : String) :
    (x ∈ (aupsert m k v).map Prod.fst) ↔ (x ∈ m.map Prod.fst ∨ x = k) := by
  induction m with
  | nil => simp [aupsert]
  | cons p rest ih =>
    by_cases hk : p.1 = k
    · obtain ⟨a, b⟩ := p
      simp only at hk
      subst hk
      simp [aupsert]
      tauto
    · obtain ⟨a, b⟩ := p
      simp only at hk
      simp [aupsert, hk, ih]
      tauto

theorem nodup_keys_aupsert (m : List (String × α)) (k : String) (v : α)
    (h : (m.map Prod.fst).Nodup) : ((aupsert m k v).map Prod.fst).Nodup := by
  induction m with
  | nil => simp [aupsert]
  | cons p rest ih =>
    obtain ⟨a, b⟩ := p
    simp only [List.map_cons, List.nodup_cons] at h
    by_cases hk : a = k
    · subst hk
      simp [aupsert, h.1, h.2]
    · simp only [aupsert, hk, if_false, ite_false, List.map_cons, List.nodup_cons]
      refine ⟨?_, ih h.2⟩
      rw [mem_keys_aupsert]
      rintro (hmem | heq)
      · exact h.1 hmem
      · exact hk heq

theorem nodup_keys_leafProps (ct : String)
    (members : List (String × Bool × Option String × TSType)) :
    ((leafProps ct members).map Prod.fst).Nodup := by
  have haux : ∀ (ms : List (String × Bool × Option String × TSType))
      (acc : List (String × Schema)), (acc.map Prod.fst).Nodup →
      ((ms.foldl (leafPropStep ct) acc).map Prod.fst).Nodup := by
    intro ms
    induction ms with
    | nil => exact fun acc h => h
    | cons m rest ih =>
      intro acc h
      exact ih _ (nodup_keys_aupsert _ _ _ h)
  exact haux members [] (by simp)

theorem alookup_none_of_not_mem_keys (m : List (String × α)) (k : String)
    (h : k ∉ m.map Prod.fst) : alookup m k = none := by
  induction m with
  | nil => rfl
  | cons p rest ih =>
    obtain ⟨a, b⟩ := p
    simp only [List.map_cons, List.mem_cons, not_or] at h
    have hne : ¬ a = k := fun hh => h.1 hh.symm
    rw [alookup_cons, if_neg hne]
    exact ih h.2

theorem alookup_pickFold (bprops : List (String × Schema)) (keys : List String)
    (acc : List (String × Schema)) (k : String) :
    alookup (keys.foldl (fun acc key =>
        match alookup bprops key with
        | some v => aupsert acc key v
        | none => acc) acc) k =
      if k ∈ keys ∧ (alookup bprops k).isSome then alookup bprops k
      else alookup acc k := by
  induction keys generalizing acc with
  | nil => simp
  | cons key rest ih =>
    simp only [List.foldl_cons]
    rw [ih]
    by_cases hk : k ∈ rest ∧ (alookup bprops k).isSome
    · have : k ∈ key :: rest ∧ (alookup bprops k).isSome :=
        ⟨List.mem_cons_of_mem _ hk.1, hk.2⟩
      simp [hk, this]
    · rw [if_neg hk]
      cases hb : alookup bprops key with
      | some v =>
        by_cases hkk : k = key
        · subst hkk
          have : k ∈ k :: rest ∧ (alookup bprops k).isSome := by
            simp [hb]
          rw [if_pos this, hb, alookup_aupsert_same]
        · rw [alookup_aupsert_other _ _ _ _ (fun hh => hkk hh.symm)]
          have : ¬ (k ∈ key :: rest ∧ (alookup bprops k).isSome) := by
            simp only [List.mem_cons]
            rintro ⟨hm | hm, hsome⟩
            · exact hkk hm
            · exact hk ⟨hm, hsome⟩
          rw [if_neg this]
      | none =>
        have : ¬ (k ∈ key :: rest ∧ (alookup bprops k).isSome) := by
          simp only [List.mem_cons]
          rintro ⟨hm | hm, hsome⟩
          · rw [hm, hb] at hsome
            simp at hsome
          · exact hk ⟨hm, hsome⟩
        rw [if_neg this]

theorem alookup_pickProps (bprops : List (String × Schema)) (keys : List String)
    (k : String) :
    alookup (pickProps bprops keys) k =
      if k ∈ keys then alookup bprops k else none := by
  show alookup (keys.foldl _ []) k = _
  rw [alookup_pickFold]
  cases hb : alookup bprops k <;> by_cases hk : k ∈ keys <;> simp [hb, hk]

theorem alookup_omitFold (keys : List String) (bprops : List (String × Schema))
    (acc : List (String × Schema)) (k : String)
    (hnd : (bprops.map Prod.fst).Nodup) :
    alookup (bprops.foldl (fun acc kv =>
        if kv.1 ∈ keys then acc else aupsert acc kv.1 kv.2) acc) k =
      if k ∈ keys then alookup acc k
      else
        match alookup bprops k with
        | some v => some v
        | none => alookup acc k := by
  induction bprops generalizing acc with
  | nil => by_cases hk : k ∈ keys <;> simp [hk]
  | cons p rest ih =>
    obtain ⟨a, b⟩ := p
    simp only [List.map_cons, List.nodup_cons] at hnd
    simp only [List.foldl_cons]
    rw [ih _ hnd.2]
    by_cases hk : k ∈ keys
    · rw [if_pos hk, if_pos hk]
      by_cases ha : a ∈ keys
      · rw [if_pos ha]
      · rw [if_neg ha, alookup_aupsert_other]
        intro hh
        rw [hh] at ha
        exact ha hk
    · rw [if_neg hk, if_neg hk]
      by_cases hak : a = k
      · subst hak
        have hrest : alookup rest a = none :=
          alookup_none_of_not_mem_keys _ _ hnd.1
        rw [hrest]
        have ha : a ∉ keys := hk
        rw [if_neg ha]
        simp [alookup_aupsert_same]
      · have hacc : alookup (if a ∈ keys then acc else aupsert acc a b) k =
            alookup acc k := by
          by_cases ha : a ∈ keys
          · rw [if_pos ha]
          · rw [if_neg ha, alookup_aupsert_other _ _ _ _ hak]
        rw [hacc]
        simp only [alookup_cons, if_neg hak]

theorem alookup_omitProps (bprops : List (String × Schema)) (keys : List String)
    (k : String) (hnd : (bprops.map Prod.fst).Nodup) :
    alookup (omitProps bprops keys) k =
      if k ∈ keys then none else alookup bprops k := by
  show alookup (bprops.foldl _ []) k = _
  rw [alookup_omitFold _ _ _ _ hnd]
  cases hb : alookup bprops k <;> by_cases hk : k ∈ keys <;> simp [hb, hk]

/-- Environment of the nested counterexample: Inner is itself declared
as a Pick over A, and then used as the base of another Pick. -/
def envNest : List (String × TSDecl) :=
  [("A", .interfaceD [] [("x", false, none, .strKw), ("y", false, none, .strKw)]),
   ("Inner", .nodeD (.typeRef "Pick" [.typeRef "A" [], .litStr "x"]))]

/-- The outer Pick expression over the alias Inner. -/
def outerPick : TSType := .typeRef "Pick" [.typeRef "Inner" [], .litStr "x"]

/-- Environment of the second nested counterexample: Base is a plain
interface, but its member v has a Pick type, so resolving Base as a
Pick base runs a nested Pick while the guard flag is set. -/
def envMem : List (String × TSDecl) :=
  [("C", .interfaceD [] [("x", false, none, .strKw), ("y", false, none, .strKw)]),
   ("Base", .interfaceD [] [("v", false, none,
      .typeRef "Pick" [.typeRef "C" [], .litStr "x"])])]

/-- Pick over the plain interface Base whose member type is a Pick. -/
def memberPick : TSType := .typeRef "Pick" [.typeRef "Base" [], .litStr "v"]

/-- C7 counterexample: the no-registration half of the claim fails
whenever a nested Pick/Omit runs while the guard flag is set, because
the nested resolution resets the flag to false instead of restoring it.
First conjunct: a base that is itself declared as a Pick alias (Inner)
is registered in the shared component-schema table.  Second conjunct:
even a base declared as a plain interface (Base) is registered when one
of its members has a Pick type. -/
theorem C7_counterexample_nested_pick_registers_base :
    alookup ((tstep envNest 20 (.resolveNode (some outerPick)) initialTSState).2).defs
        "Inner" =
      some (Schema.mk { type? := some "object",
                        properties? := some
                          [("x", Schema.mk { type? := some "string" })] }) ∧
    alookup ((tstep envMem 20 (.resolveNode (some memberPick)) initialTSState).2).defs
        "Base" =
      some (Schema.mk { type? := some "object",
                        properties? := some
                          [("v", Schema.mk { type? := some "object",
                                             properties? := some
                                               [("x", Schema.mk { type? := some "string" })] })] }) := by
  exact ⟨rfl, rfl⟩

/-- C7 amended: for a base declared as a plain interface whose members
all have leaf (keyword or literal) types, Pick keeps exactly the base
properties named by the keys, Omit keeps exactly the base properties
not named, and no schema at all is registered into the shared component
table while resolving either expression.  The leaf restriction is
essential: as the counterexample shows, the guarantee fails as soon as
a nested Pick/Omit runs during the base's resolution — when the base is
itself a Pick/Omit alias, and also when the base is a plain interface
with a Pick-typed member. -/
theorem C7_pick_omit_projection (env : List (String × TSDecl)) (fuel : Nat)
    (base : String) (members : List (String × Bool × Option String × TSType))
    (p1 : TSType)
    (hb : base ∉ ["Date", "Array", "ReadonlyArray", "Record", "Partial",
                  "Required", "Readonly", "Pick", "Omit"])
    (henv : alookup env base = some (.interfaceD [] members))
    (hleaf : ∀ m ∈ members, leafT m.2.2.2 = true) :
    ((tstep env (fuel + 6)
        (.resolveNode (some (.typeRef "Pick" [.typeRef base [], p1])))
        initialTSState).1 =
      Schema.mk { type? := some "object",
                  properties? := some (pickProps (leafProps "" members)
                    (extractKeysFromLiteralType p1)) } ∧
     ((tstep env (fuel + 6)
        (.resolveNode (some (.typeRef "Pick" [.typeRef base [], p1])))
        initialTSState).2).defs = []) ∧
    ((tstep env (fuel + 6)
        (.resolveNode (some (.typeRef "Omit" [.typeRef base [], p1])))
        initialTSState).1 =
      Schema.mk { type? := some "object",
                  properties? := some (omitProps (leafProps "" members)
                    (extractKeysFromLiteralType p1)) } ∧
     ((tstep env (fuel + 6)
        (.resolveNode (some (.typeRef "Omit" [.typeRef base [], p1])))
        initialTSState).2).defs = []) ∧
    (∀ k, alookup (pickProps (leafProps "" members)
        (extractKeysFromLiteralType p1)) k =
      if k ∈ extractKeysFromLiteralType p1 then alookup (leafProps "" members) k
      else none) ∧
    (∀ k, alookup (omitProps (leafProps "" members)
        (extractKeysFromLiteralType p1)) k =
      if k ∈ extractKeysFromLiteralType p1 then none
      else alookup (leafProps "" members) k) := by
  have hbase := resolveNode_plainRef env fuel base members
    ({ initialTSState with isResolvingPickOmitBase := true } : TSState)
    hb (by simp [initialTSState]) (by simp [initialTSState]) henv hleaf rfl
  refine ⟨⟨?_, ?_⟩, ⟨?_, ?_⟩, fun k => alookup_pickProps _ _ k,
          fun k => alookup_omitProps _ _ k (nodup_keys_leafProps _ _)⟩ <;>
    rw [show fuel + 6 = (fuel + 5) + 1 from rfl, tstep_rn_eq] <;>
    (first
     | rw [resolveNodeStep_pick (fun n s => tstep env (fuel + 5) (.resolveNode n) s)
           (fun n c s => tstep env (fuel + 5) (.findSchemaDefinition n c) s)
           (fun n s => tstep env (fuel + 5) (.resolveType n) s)
           (.typeRef base []) p1 [] initialTSState _ _ _ hbase rfl]
     | rw [resolveNodeStep_omit (fun n s => tstep env (fuel + 5) (.resolveNode n) s)
           (fun n c s => tstep env (fuel + 5) (.findSchemaDefinition n c) s)
           (fun n s => tstep env (fuel + 5) (.resolveType n) s)
           (.typeRef base []) p1 [] initialTSState _ _ _ hbase rfl]) <;>
    rfl

/-- Environment of the specification scenario: a base object with the
three members id, name and role. -/
def envBase : List (String × TSDecl) :=
  [("Base", .interfaceD [] [("id", false, none, .strKw), ("name", false, none, .strKw),
     ("role", false, none, .strKw)])]

/-- C7 witness: on the base of the claim, Pick of id and name and Omit
of role both produce exactly the id and name properties, and nothing is
registered into the component table. -/
theorem C7_witness :
    ((tstep envBase (3 + 6)
        (.resolveNode (some (.typeRef "Pick"
          [.typeRef "Base" [], .unionT [.litStr "id", .litStr "name"]])))
        initialTSState).1 =
      Schema.mk { type? := some "object",
                  properties? := some
                    [("id", Schema.mk { type? := some "string" }),
                     ("name", Schema.mk { type? := some "string" })] } ∧
     ((tstep envBase (3 + 6)
        (.resolveNode (some (.typeRef "Pick"
          [.typeRef "Base" [], .unionT [.litStr "id", .litStr "name"]])))
        initialTSState).2).defs = []) ∧
    ((tstep envBase (3 + 6)
        (.resolveNode (some (.typeRef "Omit" [.typeRef "Base" [], .litStr "role"])))
        initialTSState).1 =
      Schema.mk { type? := some "object",
                  properties? := some
                    [("id", Schema.mk { type? := some "string" }),
                     ("name", Schema.mk { type? := some "string" })] } ∧
     ((tstep envBase (3 + 6)
        (.resolveNode (some (.typeRef "Omit" [.typeRef "Base" [], .litStr "role"])))
        initialTSState).2).defs = []) := by
  have h1 := C7_pick_omit_projection envBase 3 "Base"
    [("id", false, none, .strKw), ("name", false, none, .strKw),
     ("role", false, none, .strKw)]
    (.unionT [.litStr "id", .litStr "name"]) (by decide) rfl (by decide)
  have h2 := C7_pick_omit_projection envBase 3 "Base"
    [("id", false, none, .strKw), ("name", false, none, .strKw),
     ("role", false, none, .strKw)]
    (.litStr "role") (by decide) rfl (by decide)
  refine ⟨⟨?_, h1.1.2⟩, ⟨?_, h2.2.1.2⟩⟩
  · rw [h1.1.1]
    rfl
  · rw [h2.2.1.1]
    rfl

/-!
Claim C9: ordering of the final paths mapping.  The specification-side
order relation below follows the words of the claim: primary key the
alphabetical (code-point) order of each path's first tag, secondary key
the segment count of the path template, shorter first.
-/

/-- Specification-side path order: first tag strictly alphabetical, or
equal first tags and no more segments. -/
def specPathLe (sw : List (String × List (String × RouteOp))) (a b : String) :
    Prop :=
  lexCmp (firstTagOf ((alookup sw a).getD [])).toList
      (firstTagOf ((alookup sw b).getD [])).toList = .lt ∨
  (firstTagOf ((alookup sw a).getD []) = firstTagOf ((alookup sw b).getD []) ∧
   (splitOnStr '/' a).length ≤ (splitOnStr '/' b).length)

theorem char_eq_of_toNat_eq (a b : Char) (h : a.toNat = b.toNat) : a = b :=
  Char.ext (UInt32.ext h)

theorem lexCmp_eq_iff (xs : List Char) : ∀ ys, lexCmp xs ys = .eq ↔ xs = ys := by
  induction xs with
  | nil => intro ys; cases ys <;> simp [lexCmp]
  | cons a as ih =>
    intro ys
    cases ys with
    | nil => simp [lexCmp]
    | cons b bs =>
      simp only [lexCmp]
      by_cases hab : a.toNat < b.toNat
      · rw [if_pos hab]
        simp only [List.cons.injEq]
        constructor
        · intro h; exact absurd h (by decide)
        · rintro ⟨rfl, rfl⟩; omega
      · by_cases hba : b.toNat < a.toNat
        · rw [if_neg hab, if_pos hba]
          simp only [List.cons.injEq]
          constructor
          · intro h; exact absurd h (by decide)
          · rintro ⟨rfl, rfl⟩; omega
        · rw [if_neg hab, if_neg hba, ih bs]
          simp only [List.cons.injEq]
          have hchar : a = b := char_eq_of_toNat_eq a b (by omega)
          subst hchar
          simp

theorem lexCmp_swap (xs : List Char) : ∀ ys,
    lexCmp ys xs = (lexCmp xs ys).swap := by
  induction xs with
  | nil => intro ys; cases ys <;> simp [lexCmp, Ordering.swap]
  | cons a as ih =>
    intro ys
    cases ys with
    | nil => simp [lexCmp, Ordering.swap]
    | cons b bs =>
      simp only [lexCmp]
      by_cases hab : a.toNat < b.toNat
      · have hba : ¬ b.toNat < a.toNat := by omega
        rw [if_neg hba, if_pos hab, if_pos hab]
        rfl
      · by_cases hba : b.toNat < a.toNat
        · rw [if_pos hba, if_neg hab, if_pos hba]
          rfl
        · rw [if_neg hba, if_neg hab, if_neg hab, if_neg hba]
          exact ih bs

theorem lexCmp_trans_lt (xs : List Char) : ∀ (ys zs : List Char),
    lexCmp xs ys = .lt → lexCmp ys zs = .lt → lexCmp xs zs = .lt := by
  induction xs with
  | nil =>
    intro ys zs h1 h2
    cases ys with
    | nil => simp [lexCmp] at h1
    | cons b bs =>
      cases zs with
      | nil => simp [lexCmp] at h2
      | cons c cs => simp [lexCmp]
  | cons a as ih =>
    intro ys zs h1 h2
    cases ys with
    | nil => simp [lexCmp] at h1
    | cons b bs =>
      cases zs with
      | nil => simp [lexCmp] at h2
      | cons c cs =>
        simp only [lexCmp] at h1 h2 ⊢
        by_cases hab : a.toNat < b.toNat
        · by_cases hbc : b.toNat < c.toNat
          · rw [if_pos (by omega : a.toNat < c.toNat)]
          · by_cases hcb : c.toNat < b.toNat
            · rw [if_neg hbc, if_pos hcb] at h2
              exact absurd h2 (by decide)
            · rw [if_pos (by omega : a.toNat < c.toNat)]
        · by_cases hba : b.toNat < a.toNat
          · rw [if_neg hab, if_pos hba] at h1
            exact absurd h1 (by decide)
          · rw [if_neg hab, if_neg hba] at h1
            by_cases hbc : b.toNat < c.toNat
            · rw [if_pos (by omega : a.toNat < c.toNat)]
            · by_cases hcb : c.toNat < b.toNat
              · rw [if_neg hbc, if_pos hcb] at h2
                exact absurd h2 (by decide)
              · rw [if_neg hbc, if_neg hcb] at h2
                rw [if_neg (by omega : ¬ a.toNat < c.toNat),
                    if_neg (by omega : ¬ c.toNat < a.toNat)]
                exact ih bs cs h1 h2

theorem natCmp_not_gt (m n : Nat) : natCmp m n ≠ .gt ↔ m ≤ n := by
  unfold natCmp
  by_cases h1 : m < n
  · rw [if_pos h1]
    constructor
    · intro _
      omega
    · intro _ h
      cases h
  · by_cases h2 : n < m
    · rw [if_neg h1, if_pos h2]
      constructor
      · intro h
        exact (h rfl).elim
      · intro hle
        exfalso
        omega
    · rw [if_neg h1, if_neg h2]
      constructor
      · intro _
        omega
      · intro _ h
        cases h

theorem natCmp_swap (m n : Nat) : natCmp n m = (natCmp m n).swap := by
  unfold natCmp
  by_cases h1 : m < n
  · have h2 : ¬ n < m := by omega
    rw [if_neg h2, if_pos h1, if_pos h1]
    rfl
  · by_cases h2 : n < m
    · rw [if_pos h2, if_neg h1, if_pos h2]
      rfl
    · rw [if_neg h2, if_neg h1, if_neg h1, if_neg h2]
      rfl

theorem comparePaths_swap (sw : List (String × List (String × RouteOp)))
    (a b : String) : comparePaths sw b a = (comparePaths sw a b).swap := by
  show (match lexCmp (firstTagOf ((alookup sw b).getD [])).toList
      (firstTagOf ((alookup sw a).getD [])).toList with
    | Ordering.eq => natCmp (splitOnStr '/' b).length (splitOnStr '/' a).length
    | o => o) =
    (match lexCmp (firstTagOf ((alookup sw a).getD [])).toList
      (firstTagOf ((alookup sw b).getD [])).toList with
    | Ordering.eq => natCmp (splitOnStr '/' a).length (splitOnStr '/' b).length
    | o => o).swap
  rw [lexCmp_swap]
  cases h : lexCmp (firstTagOf ((alookup sw a).getD [])).toList
      (firstTagOf ((alookup sw b).getD [])).toList <;>
    first
    | rfl
    | exact natCmp_swap _ _

theorem string_eq_of_toList_eq (s t : String) (h : s.toList = t.toList) : s = t := by
  cases s
  cases t
  exact congrArg String.mk (by simpa [String.toList] using h)

theorem keyLe_iff (t1 t2 : String) (n1 n2 : Nat) :
    ((match lexCmp t1.toList t2.toList with
      | .eq => natCmp n1 n2
      | o => o) ≠ .gt) ↔
    (lexCmp t1.toList t2.toList = .lt ∨ (t1 = t2 ∧ n1 ≤ n2)) := by
  cases h : lexCmp t1.toList t2.toList with
  | lt => simp [h]
  | eq =>
    have ht : t1 = t2 :=
      string_eq_of_toList_eq _ _ ((lexCmp_eq_iff _ _).mp h)
    simp [h, ht, natCmp_not_gt]
  | gt =>
    have ht : t1 ≠ t2 := by
      intro he
      rw [he, (lexCmp_eq_iff _ _).mpr rfl] at h
      cases h
    simp [h, ht]

theorem pathLe_iff (sw : List (String × List (String × RouteOp))) (a b : String) :
    pathLe sw a b ↔ specPathLe sw a b :=
  keyLe_iff (firstTagOf ((alookup sw a).getD []))
    (firstTagOf ((alookup sw b).getD []))
    (splitOnStr '/' a).length (splitOnStr '/' b).length

instance pathLeTotal (sw : List (String × List (String × RouteOp))) :
    IsTotal String (pathLe sw) := ⟨by
  intro a b
  by_cases h : comparePaths sw a b = .gt
  · right
    show comparePaths sw b a ≠ .gt
    rw [comparePaths_swap, h]
    decide
  · exact Or.inl h⟩

instance pathLeTrans (sw : List (String × List (String × RouteOp))) :
    IsTrans String (pathLe sw) := ⟨by
  intro a b c hab hbc
  rw [pathLe_iff] at hab hbc ⊢
  rcases hab with h1 | ⟨e1, l1⟩ <;> rcases hbc with h2 | ⟨e2, l2⟩
  · exact Or.inl (lexCmp_trans_lt _ _ _ h1 h2)
  · rw [e2] at h1
    exact Or.inl h1
  · rw [← e1] at h2
    exact Or.inl h2
  · exact Or.inr ⟨e1.trans e2, le_trans l1 l2⟩⟩

theorem alookup_map_keyfun {β : Type} (ks : List String) (g : String → β)
    (k : String) (h : k ∈ ks) :
    alookup (ks.map (fun x => (x, g x))) k = some (g k) := by
  induction ks with
  | nil => simp at h
  | cons x rest ih =>
    simp only [List.map_cons, alookup_cons]
    by_cases hx : x = k
    · subst hx
      simp
    · rw [if_neg hx]
      refine ih ?_
      rcases List.mem_cons.mp h with he | hm
      · exact absurd he.symm hx
      · exact hm

theorem map_lookup_self (paths : List (String × List (String × RouteOp)))
    (hnd : (paths.map Prod.fst).Nodup) :
    (paths.map Prod.fst).map (fun k => (k, (alookup paths k).getD [])) = paths := by
  induction paths with
  | nil => rfl
  | cons p rest ih =>
    obtain ⟨k, v⟩ := p
    simp only [List.map_cons, List.nodup_cons] at hnd ⊢
    have hhead : (k, (alookup ((k, v) :: rest) k).getD []) = (k, v) := by simp
    rw [hhead]
    have hcongr : ∀ k' ∈ rest.map Prod.fst,
        (fun x => (x, (alookup ((k, v) :: rest) x).getD [])) k' =
        (fun x => (x, (alookup rest x).getD [])) k' := by
      intro k' hk'
      simp only [alookup_cons]
      rw [if_neg (fun he : k = k' => hnd.1 (by rw [he]; exact hk'))]
    rw [List.map_congr_left hcongr, ih hnd.2]

theorem getSortedPaths_keys (sw paths : List (String × List (String × RouteOp))) :
    (getSortedPaths sw paths).map Prod.fst =
      (paths.map (fun kv => kv.1)).insertionSort (pathLe sw) := by
  simp only [getSortedPaths, List.map_map]
  have hid : (Prod.fst ∘ fun k => (k, (alookup paths k).getD [])) = id := rfl
  rw [hid, List.map_id]

/-- C9: the final paths mapping is the route table re-ordered by the
comparator, its keys sorted by the specification order (first tag
alphabetically, then segment count, shorter first); the double sort of
getSwaggerPaths collapses to a single sort, so the result is a
deterministic function of the route table and repeated runs agree. -/
theorem C9_paths_sorted_deterministic
    (sw : List (String × List (String × RouteOp)))
    (hnd : (sw.map Prod.fst).Nodup) :
    List.Sorted (specPathLe sw) ((getSwaggerPaths sw).map Prod.fst) ∧
    (getSwaggerPaths sw).Perm sw ∧
    getSwaggerPaths sw = getSortedPaths sw sw := by
  have hkeys : (getSortedPaths sw sw).map Prod.fst =
      (sw.map (fun kv => kv.1)).insertionSort (pathLe sw) :=
    getSortedPaths_keys sw sw
  have hsorted : List.Sorted (pathLe sw)
      ((sw.map (fun kv => kv.1)).insertionSort (pathLe sw)) :=
    List.sorted_insertionSort _ _
  have h2 : getSortedPaths sw sw =
      ((sw.map (fun kv => kv.1)).insertionSort (pathLe sw)).map
        (fun k => (k, (alookup sw k).getD [])) := rfl
  have hidem : getSwaggerPaths sw = getSortedPaths sw sw := by
    have h1 : getSwaggerPaths sw =
        (((getSortedPaths sw sw).map Prod.fst).insertionSort (pathLe sw)).map
          (fun k => (k, (alookup (getSortedPaths sw sw) k).getD [])) := rfl
    rw [h1, hkeys, List.Sorted.insertionSort_eq hsorted, h2]
    apply List.map_congr_left
    intro k hk
    rw [alookup_map_keyfun _ _ _ hk]
    rfl
  refine ⟨?_, ?_, hidem⟩
  · rw [hidem, hkeys]
    exact List.Pairwise.imp (fun h => (pathLe_iff sw _ _).mp h) hsorted
  · rw [hidem, h2]
    have hperm := (List.perm_insertionSort (pathLe sw) (sw.map (fun kv => kv.1))).map
      (fun k => (k, (alookup sw k).getD []))
    have hself := map_lookup_self sw hnd
    rw [show (sw.map (fun kv => kv.1)) = sw.map Prod.fst from rfl, hself] at hperm
    exact hperm

/-- Route table of the witness: three paths, two tags, one tag tie broken
by segment count. -/
def sw9 : List (String × List (String × RouteOp)) :=
  [("/b/x", [("get", ⟨["beta"]⟩)]),
   ("/a", [("get", ⟨["alpha"]⟩)]),
   ("/b", [("delete", ⟨["beta"]⟩)])]

/-- C9 witness: the theorem applied to the three-path table, together
with the concrete sorted key order it produces. -/
theorem C9_witness :
    ((sw9.map Prod.fst).Nodup ∧
     List.Sorted (specPathLe sw9) ((getSwaggerPaths sw9).map Prod.fst) ∧
     (getSwaggerPaths sw9).Perm sw9 ∧
     getSwaggerPaths sw9 = getSortedPaths sw9 sw9) ∧
    (getSwaggerPaths sw9).map Prod.fst = ["/a", "/b", "/b/x"] := by
  have h := C9_paths_sorted_deterministic sw9 (by decide)
  exact ⟨⟨by decide, h.1, h.2.1, h.2.2⟩, by rfl⟩

/-!
Claim C10: tags that merely begin with the response tag.  The annotation
extractor matches the response tag by substring containment and by a
pattern whose two whitespace stars both match the empty string, so a tag
such as responseSet or responseDescription is captured with the
remainder of its own name as the response type.
-/

theorem word_not_space (c : Char) (h : isWordChar c = true) :
    isSpaceChar c = false := by
  by_contra hs
  have hs' : isSpaceChar c = true := by simpa using hs
  simp only [isSpaceChar, Bool.or_eq_true, decide_eq_true_eq] at hs'
  rcases hs' with ((((h1 | h1) | h1) | h1) | h1) | h1 <;> subst h1 <;>
    exact absurd h (by decide)

theorem isPrefixOf_append_self (l t : List Char) :
    l.isPrefixOf (l ++ t) = true := by
  induction l with
  | nil => simp [List.isPrefixOf]
  | cons a as ih => simp [List.isPrefixOf, ih]

theorem containsSeq_of_isPrefixOf (needle s : List Char)
    (h : needle.isPrefixOf s = true) : containsSeq needle s = true := by
  cases s with
  | nil =>
    cases needle with
    | nil => rfl
    | cons a as => simp [List.isPrefixOf] at h
  | cons c rest => simp [containsSeq, h]

theorem takeWhile_append_words (p : Char → Bool) (w rest : List Char)
    (hwall : ∀ c ∈ w, p c = true)
    (hrest : ∀ c, rest.head? = some c → p c = false) :
    (w ++ rest).takeWhile p = w := by
  induction w with
  | nil =>
    cases rest with
    | nil => rfl
    | cons c t =>
      simp [List.takeWhile_cons, hrest c rfl]
  | cons a as ih =>
    simp [List.takeWhile_cons, hwall a (List.mem_cons_self _ _),
      ih (fun c hc => hwall c (List.mem_cons_of_mem _ hc))]

theorem dropWhile_append_word (p : Char → Bool) (w rest : List Char)
    (hw : w ≠ []) (hhead : ∀ c, w.head? = some c → p c = false) :
    (w ++ rest).dropWhile p = w ++ rest := by
  cases w with
  | nil => exact absurd rfl hw
  | cons a as =>
    simp [List.dropWhile_cons, hhead a rfl]

theorem matchTagAt_start (w rest : List Char) (hw : w ≠ [])
    (hwall : ∀ c ∈ w, isWordChar c = true)
    (hrest : ∀ c, rest.head? = some c → isWordChar c = false) :
    matchTagAt respTag (respTag ++ w ++ rest) = some w := by
  have hpre : respTag.isPrefixOf (respTag ++ (w ++ rest)) = true :=
    isPrefixOf_append_self _ _
  have hhead : ∀ c, w.head? = some c → isSpaceChar c = false := by
    intro c hc
    cases w with
    | nil => cases hc
    | cons a as =>
      cases hc
      exact word_not_space _ (hwall _ (List.mem_cons_self _ _))
  simp only [matchTagAt, List.append_assoc, hpre, if_pos, List.drop_left]
  rw [dropWhile_append_word _ _ _ hw hhead,
      takeWhile_append_words _ _ _ hwall hrest]
  cases w with
  | nil => exact absurd rfl hw
  | cons a as => simp

theorem findTagCapture_of_matchAt (tag : List Char) (c : Char) (t : List Char)
    (w : List Char) (h : matchTagAt tag (c :: t) = some w) :
    findTagCapture tag (c :: t) = some w := by
  simp [findTagCapture, h]

theorem respMatchAt_start_none (w rest : List Char) (hw : w ≠ [])
    (hwall : ∀ c ∈ w, isWordChar c = true) :
    respMatchAt (respTag ++ w ++ rest) = none := by
  have hpre : respTag.isPrefixOf (respTag ++ (w ++ rest)) = true :=
    isPrefixOf_append_self _ _
  have hws : (w ++ rest).takeWhile isSpaceChar = [] := by
    cases w with
    | nil => exact absurd rfl hw
    | cons a as =>
      simp [List.takeWhile_cons,
        word_not_space _ (hwall _ (List.mem_cons_self _ _))]
  simp only [respMatchAt, List.append_assoc, hpre, if_pos, List.drop_left, hws]
  rfl

theorem findRespMatch_none_of_not_contains (s : List Char)
    (h : containsSeq respTag s = false) : findRespMatch s = none := by
  induction s with
  | nil => rfl
  | cons c rest ih =>
    simp only [containsSeq, Bool.or_eq_false_iff] at h
    simp only [findRespMatch]
    have hmt : respMatchAt (c :: rest) = none := by
      simp only [respMatchAt, h.1]
      rfl
    rw [hmt, ih h.2]

theorem findRespMatch_cons_none (c : Char) (t : List Char)
    (h1 : respMatchAt (c :: t) = none) (h2 : findRespMatch t = none) :
    findRespMatch (c :: t) = none := by
  simp [findRespMatch, h1, h2]

/-- C10: a comment whose cleaned text starts with the response tag
followed directly by more word characters (a tag such as responseSet or
responseDescription) and contains no other occurrence of the tag yields
a directive record whose response type is that non-empty remainder of
the longer tag's name, with no success code captured: the substring
check accepts the longer tag, the simple capture pattern matches with an
empty whitespace run and captures the remainder, and the full response
directive pattern fails everywhere because it requires real whitespace
after the tag. -/
theorem C10_response_prefix_tag_captures_remainder
    (raw w rest : List Char)
    (hclean : cleanComment raw = respTag ++ w ++ rest)
    (hw : w ≠ [])
    (hwall : ∀ c ∈ w, isWordChar c = true)
    (hrest : ∀ c, rest.head? = some c → isWordChar c = false)
    (htail : containsSeq respTag ("response".toList ++ w ++ rest) = false) :
    (extractResponseDirectives [raw]).responseType = w ∧
    (extractResponseDirectives [raw]).successCode = [] := by
  have hcontains : containsSeq respTag (respTag ++ w ++ rest) = true :=
    containsSeq_of_isPrefixOf _ _
      (by simp [List.append_assoc, isPrefixOf_append_self respTag (w ++ rest)])
  have hcapture : findTagCapture respTag (respTag ++ w ++ rest) = some w :=
    findTagCapture_of_matchAt respTag '@' ("response".toList ++ w ++ rest) w
      (matchTagAt_start w rest hw hwall hrest)
  have hmatch : findRespMatch (respTag ++ w ++ rest) = none :=
    findRespMatch_cons_none '@' ("response".toList ++ w ++ rest)
      (respMatchAt_start_none w rest hw hwall)
      (findRespMatch_none_of_not_contains _ htail)
  simp only [extractResponseDirectives, List.foldl_cons, List.foldl_nil, hclean,
    hcontains, if_pos, if_true, hmatch, extractTypeFromComment, hcapture]
  refine ⟨?_, ?_⟩ <;> first | rfl | trivial

/-- C10 witness: the responseSet and responseDescription directives of
the claim, captured as Set and Description. -/
theorem C10_witness :
    ((extractResponseDirectives ["@responseSet auth".toList]).responseType =
       "Set".toList ∧
     (extractResponseDirectives ["@responseSet auth".toList]).successCode = []) ∧
    ((extractResponseDirectives
        ["@responseDescription Some text".toList]).responseType =
       "Description".toList ∧
     (extractResponseDirectives
        ["@responseDescription Some text".toList]).successCode = []) :=
  ⟨C10_response_prefix_tag_captures_remainder "@responseSet auth".toList
      "Set".toList " auth".toList (by decide) (by decide) (by decide) (by decide)
      (by decide),
   C10_response_prefix_tag_captures_remainder
      "@responseDescription Some text".toList "Description".toList
      " Some text".toList (by decide) (by decide) (by decide) (by decide)
      (by decide)⟩

end NOG
